import Mathlib

/-!
# FileDrainerSingleThread: the burst-buffer drain worker

A shallow embedding of `source/adios2/toolkit/burstbuffer/FileDrainerSingleThread.cpp`.

* The file accessor (the `FileDrainer` base class: `GetFileDescriptor`, `Seek`, `Read`,
  `Write`, `CloseAll`) is external to the file. It is a parameter of the model: a
  deterministic oracle whose answer to a call may depend on every call made before it.
* `DrainThread` is embedded as a step function. One worker step is one stretch of code
  between two points where another thread can act on the shared data (the queue
  `operations` under `operationsMutex`, the flag `finish` under `finishMutex`).
* Wall-clock timing (`ts`, `te`, `timeRead`, ...) and the verbose printing are left out.
-/

namespace adios2.burstbuffer

/-! ## Data model -/

/-- Modelled from the spec: the enumeration `DrainOperation` is declared in `FileDrainer.h`;
the seven kinds are those of the `switch` in `DrainThread`, and `Unrecognized` stands for
any enumerator that reaches the `default:` label. -/
inductive DrainOperation
  | SeekEnd
  | CopyAt
  | Copy
  | WriteAt
  | Write
  | Create
  | Open
  | Unrecognized
  deriving DecidableEq, Repr

/-- Modelled from the spec: the open modes `Mode::Read`, `Mode::Write`, `Mode::Append`
of `ADIOSTypes.h` that `DrainThread` passes to `GetFileDescriptor`. -/
inductive Mode
  | Read
  | Write
  | Append
  deriving DecidableEq, Repr

/-- Modelled from the spec: the origin of a seek, `SEEK_SET` (the default of the fourth
argument of `Seek`) or `SEEK_END`. -/
inductive Whence
  | SEEK_SET
  | SEEK_END
  deriving DecidableEq, Repr

/-- The memory a `Write` call is handed: `buffer.data()`, the chunk buffer of the worker,
or `fdo.dataToWrite.data()`, the payload of the operation. -/
inductive Payload
  | buffer
  | memory (data : List Nat)
  deriving DecidableEq, Repr

/-- Modelled from the spec: the record `FileDrainOperation` of `FileDrainer.h`, with the
fields `DrainThread` reads. -/
structure FileDrainOperation where
  op : DrainOperation
  fromFileName : String
  toFileName : String
  countBytes : Nat
  fromOffset : Nat
  toOffset : Nat
  dataToWrite : List Nat
  deriving DecidableEq, Repr

/-- One call to the file accessor, with its arguments. -/
inductive Call
  | GetFileDescriptor (path : String) (mode : Mode)
  | Seek (fd : Int) (offset : Nat) (path : String) (whence : Whence)
  | Read (fd : Int) (count : Nat) (path : String)
  | Write (fd : Int) (count : Nat) (data : Payload) (path : String)
  | CloseAll
  deriving DecidableEq, Repr

/-- Modelled from the spec: the file accessor, i.e. the member functions of the base class
`FileDrainer` and its constant `errorState`. Every answer may depend on the calls made so
far (first argument). `GetFileDescriptor` answers a descriptor or `errorState`; `Seek`
answers `false` when it throws `std::ios_base::failure`; `Read` and `Write` answer `none`
when they throw and the number of bytes moved otherwise. -/
structure FileAccessor where
  errorState : Int
  GetFileDescriptor : List Call → String → Mode → Int
  Seek : List Call → Int → Nat → String → Whence → Bool
  Read : List Call → Int → Nat → String → Option Nat
  Write : List Call → Int → Nat → Payload → String → Option Nat

/-- Whether the accessor throws on call `c` made after the calls `hist`. -/
def FileAccessor.faults (acc : FileAccessor) (hist : List Call) : Call → Bool
  | .GetFileDescriptor _ _ => false
  | .Seek fd offset path whence => !(acc.Seek hist fd offset path whence)
  | .Read fd count path => (acc.Read hist fd count path).isNone
  | .Write fd count data path => (acc.Write hist fd count data path).isNone
  | .CloseAll => false

/-- Width of `size_t`. -/
def SIZE_BITS : Nat := 64

/-- Addition on `size_t`: `a += b`. -/
def addSize (a b : Nat) : Nat := (a + b) % 2 ^ SIZE_BITS

/-- The local variables of `DrainThread` that the switch updates (the four byte counters),
the trace of the accessor calls made so far (`log`, oldest first) and the number of lines
written to `std::cerr` (`cerrLines`). -/
structure DrainLocals where
  nReadBytesTasked : Nat
  nReadBytesSucc : Nat
  nWriteBytesTasked : Nat
  nWriteBytesSucc : Nat
  log : List Call
  cerrLines : Nat
  deriving DecidableEq, Repr

/-- How a piece of `DrainThread` ends: normally with a value, by a thrown
`std::ios_base::failure`, or in undefined behaviour (division by a zero `bufferSize`). -/
inductive Res (α : Type)
  | ret (a : α) (l : DrainLocals)
  | failure (l : DrainLocals)
  | undefined (l : DrainLocals)
  deriving DecidableEq, Repr

/-- The locals at the end of a piece of code, however it ended. -/
def Res.locals {α : Type} : Res α → DrainLocals
  | .ret _ l => l
  | .failure l => l
  | .undefined l => l

/-! ## Accessor calls made by the worker -/

/-- `GetFileDescriptor(path, mode)`. -/
def GetFileDescriptor (acc : FileAccessor) (path : String) (mode : Mode)
    (l : DrainLocals) : Int × DrainLocals :=
  (acc.GetFileDescriptor l.log path mode,
    { l with log := l.log ++ [Call.GetFileDescriptor path mode] })

/-- `Seek(fd, offset, path, whence)`. -/
def Seek (acc : FileAccessor) (fd : Int) (offset : Nat) (path : String) (whence : Whence)
    (l : DrainLocals) : Res Unit :=
  if acc.Seek l.log fd offset path whence then
    .ret () { l with log := l.log ++ [Call.Seek fd offset path whence] }
  else
    .failure { l with log := l.log ++ [Call.Seek fd offset path whence] }

/-- `Read(fd, count, buffer.data(), path)`. -/
def Read (acc : FileAccessor) (fd : Int) (count : Nat) (path : String)
    (l : DrainLocals) : Res Nat :=
  match acc.Read l.log fd count path with
  | some n => .ret n { l with log := l.log ++ [Call.Read fd count path] }
  | none => .failure { l with log := l.log ++ [Call.Read fd count path] }

/-- `Write(fd, count, data, path)`. -/
def Write (acc : FileAccessor) (fd : Int) (count : Nat) (data : Payload) (path : String)
    (l : DrainLocals) : Res Nat :=
  match acc.Write l.log fd count data path with
  | some n => .ret n { l with log := l.log ++ [Call.Write fd count data path] }
  | none => .failure { l with log := l.log ++ [Call.Write fd count data path] }

/-! ## The body of `DrainThread` -/

/-- Sequencing: the next statement runs only when the one before it returned; a thrown
failure (or undefined behaviour) skips it. -/
def Res.bind {α β : Type} (r : Res α) (f : α → DrainLocals → Res β) : Res β :=
  match r with
  | .ret a l => f a l
  | .failure l => .failure l
  | .undefined l => .undefined l

/-- The lambda `lf_Copy` (lines 102-117): one chunk, a read then a write of `count` bytes. -/
def lf_Copy (acc : FileAccessor) (fdo : FileDrainOperation) (fdr fdw : Int) (count : Nat)
    (l : DrainLocals) : Res Unit :=
  (Read acc fdr count fdo.fromFileName
      { l with nReadBytesTasked := addSize l.nReadBytesTasked count }).bind fun n l1 =>
  (Write acc fdw count Payload.buffer fdo.toFileName
      { l1 with nReadBytesSucc := addSize l1.nReadBytesSucc n,
                nWriteBytesTasked := addSize l1.nWriteBytesTasked count }).bind fun m l2 =>
  .ret () { l2 with nWriteBytesSucc := addSize l2.nWriteBytesSucc m }

/-- The loop `for (size_t b = 0; b < batches; ++b) lf_Copy(fdo, fdr, fdw, bufferSize);`
(lines 199-202), by the number of iterations left. -/
def copyBatches (acc : FileAccessor) (fdo : FileDrainOperation) (fdr fdw : Int)
    (bufferSize : Nat) : Nat → DrainLocals → Res Unit
  | 0, l => .ret () l
  | b + 1, l =>
    (lf_Copy acc fdo fdr fdw bufferSize l).bind fun _ l1 =>
    copyBatches acc fdo fdr fdw bufferSize b l1

/-- Lines 197-206: the batches and the remainder. Dividing by a zero `bufferSize` is
undefined behaviour. -/
def copyChunks (acc : FileAccessor) (bufferSize : Nat) (fdo : FileDrainOperation)
    (fdr fdw : Int) (l : DrainLocals) : Res Unit :=
  if bufferSize = 0 then .undefined l
  else
    (copyBatches acc fdo fdr fdw bufferSize (fdo.countBytes / bufferSize) l).bind fun _ l1 =>
    if fdo.countBytes % bufferSize ≠ 0 then
      lf_Copy acc fdo fdr fdw (fdo.countBytes % bufferSize) l1
    else .ret () l1

/-- The `try` block of the copy case (lines 185-206). -/
def copyTry (acc : FileAccessor) (bufferSize : Nat) (fdo : FileDrainOperation)
    (fdr fdw : Int) (l : DrainLocals) : Res Unit :=
  if fdo.op = DrainOperation.CopyAt then
    (Seek acc fdr fdo.fromOffset fdo.fromFileName Whence.SEEK_SET l).bind fun _ l1 =>
    (Seek acc fdw fdo.toOffset fdo.toFileName Whence.SEEK_SET l1).bind fun _ l2 =>
    copyChunks acc bufferSize fdo fdr fdw l2
  else copyChunks acc bufferSize fdo fdr fdw l

/-- The case `CopyAt`/`Copy` of the switch (lines 152-215): the two opens, the test of the
descriptors against `errorState`, and the `try` block with its `catch`, which writes one
line to `std::cerr`. -/
def dispatchCopy (acc : FileAccessor) (bufferSize : Nat) (fdo : FileDrainOperation)
    (l : DrainLocals) : Res Unit :=
  let r := GetFileDescriptor acc fdo.fromFileName Mode.Read l
  let wMode := if fdo.op = DrainOperation.CopyAt then Mode.Write else Mode.Append
  let w := GetFileDescriptor acc fdo.toFileName wMode r.2
  if r.1 ≠ acc.errorState ∧ w.1 ≠ acc.errorState then
    match copyTry acc bufferSize fdo r.1 w.1 w.2 with
    | .ret _ l1 => .ret () l1
    | .failure l1 => .ret () { l1 with cerrLines := l1.cerrLines + 1 }
    | .undefined l1 => .undefined l1
  else .ret () w.2

/-- The case `SeekEnd` (lines 216-229). -/
def dispatchSeekEnd (acc : FileAccessor) (fdo : FileDrainOperation)
    (l : DrainLocals) : Res Unit :=
  let w := GetFileDescriptor acc fdo.toFileName Mode.Write l
  Seek acc w.1 0 fdo.toFileName Whence.SEEK_END w.2

/-- The case `WriteAt` (lines 230-249). -/
def dispatchWriteAt (acc : FileAccessor) (fdo : FileDrainOperation)
    (l : DrainLocals) : Res Unit :=
  let w := GetFileDescriptor acc fdo.toFileName Mode.Write
    { l with nWriteBytesTasked := addSize l.nWriteBytesTasked fdo.countBytes }
  (Seek acc w.1 fdo.toOffset fdo.toFileName Whence.SEEK_SET w.2).bind fun _ l1 =>
  (Write acc w.1 fdo.countBytes (Payload.memory fdo.dataToWrite) fdo.toFileName l1).bind
    fun n l2 =>
  .ret () { l2 with nWriteBytesSucc := addSize l2.nWriteBytesSucc n }

/-- The case `Write` (lines 250-268). -/
def dispatchWrite (acc : FileAccessor) (fdo : FileDrainOperation)
    (l : DrainLocals) : Res Unit :=
  let w := GetFileDescriptor acc fdo.toFileName Mode.Write
    { l with nWriteBytesTasked := addSize l.nWriteBytesTasked fdo.countBytes }
  (Write acc w.1 fdo.countBytes (Payload.memory fdo.dataToWrite) fdo.toFileName w.2).bind
    fun n l2 =>
  .ret () { l2 with nWriteBytesSucc := addSize l2.nWriteBytesSucc n }

/-- The `switch (fdo.op)` of lines 149-298. `Res.ret` is leaving the switch by `break`;
`Res.failure` is an exception that leaves the switch uncaught. -/
def dispatch (acc : FileAccessor) (bufferSize : Nat) (fdo : FileDrainOperation)
    (l : DrainLocals) : Res Unit :=
  match fdo.op with
  | .CopyAt => dispatchCopy acc bufferSize fdo l
  | .Copy => dispatchCopy acc bufferSize fdo l
  | .SeekEnd => dispatchSeekEnd acc fdo l
  | .WriteAt => dispatchWriteAt acc fdo l
  | .Write => dispatchWrite acc fdo l
  | .Create => .ret () (GetFileDescriptor acc fdo.toFileName Mode.Write l).2
  | .Open => .ret () (GetFileDescriptor acc fdo.toFileName Mode.Append l).2
  | .Unrecognized => .ret () l

/-! ## The drainer object and the worker thread -/

/-- Where the worker thread stands in `DrainThread`. Between two of these points the
worker touches no data that another thread can change.
* `notStarted`: no thread has been started;
* `polling`: at the top of the loop (line 123);
* `checkFinish`: the queue was seen empty and its lock released (after line 126);
* `draining`: `fdo` refers to the front of the queue, the lock is released (after line 147);
* `popping`: the switch was left by `break` (before line 299);
* `exited`: `DrainThread` has returned;
* `terminated`: an exception left the thread function (`std::terminate`);
* `undefined`: undefined behaviour was reached. -/
inductive WorkerPC
  | notStarted
  | polling
  | checkFinish
  | draining
  | popping
  | exited
  | terminated
  | undefined
  deriving DecidableEq, Repr

/-- The object `FileDrainerSingleThread`: the members `bufferSize`, `operations` (front of
the queue first), `finish`, whether `th` is joinable, and the state of the thread `th`:
where it stands, its local `maxQueueSize` and its other locals. -/
structure FileDrainerSingleThread where
  bufferSize : Nat
  operations : List FileDrainOperation
  finish : Bool
  joinable : Bool
  pc : WorkerPC
  maxQueueSize : Nat
  locals : DrainLocals
  deriving DecidableEq, Repr

/-- The locals of `DrainThread` at its start (lines 92-99), on the accessor trace so far. -/
def DrainLocals.start (log : List Call) (cerrLines : Nat) : DrainLocals :=
  { nReadBytesTasked := 0, nReadBytesSucc := 0,
    nWriteBytesTasked := 0, nWriteBytesSucc := 0, log := log, cerrLines := cerrLines }

/-- A newly constructed drainer. -/
def FileDrainerSingleThread.new (bufferSize : Nat) : FileDrainerSingleThread :=
  { bufferSize := bufferSize, operations := [], finish := false, joinable := false,
    pc := WorkerPC.notStarted, maxQueueSize := 0, locals := DrainLocals.start [] 0 }

/-- `SetBufferSize` (lines 35-38). -/
def SetBufferSize (bufferSizeBytes : Nat) (s : FileDrainerSingleThread) :
    FileDrainerSingleThread :=
  { s with bufferSize := bufferSizeBytes }

/-- `Start` (lines 40-43) and the prologue of `DrainThread` that the new thread runs before
its loop (lines 85-99). Assigning to a `std::thread` that is joinable calls
`std::terminate`. In the prologue `buffer.resize(bufferSize)` (line 94) throws
(`std::length_error`, `std::bad_alloc`) for a size the vector cannot hold, and the
exception leaves the thread function: `std::terminate`. `canResize n` tells whether
`buffer.resize(n)` succeeds on the machine at hand. -/
def Start (canResize : Nat → Bool) (s : FileDrainerSingleThread) : FileDrainerSingleThread :=
  if s.joinable then { s with pc := WorkerPC.terminated }
  else if canResize s.bufferSize then
    { s with joinable := true, pc := WorkerPC.polling, maxQueueSize := 0,
             locals := DrainLocals.start s.locals.log s.locals.cerrLines }
  else
    { s with joinable := true, pc := WorkerPC.terminated, maxQueueSize := 0,
             locals := DrainLocals.start s.locals.log s.locals.cerrLines }

/-- `Finish` (lines 45-50). -/
def Finish (s : FileDrainerSingleThread) : FileDrainerSingleThread :=
  { s with finish := true }

/-- Modelled from the spec: `AddOperation` of the base class `FileDrainer`, the push that
appends an operation to the tail of the queue under the queue lock. -/
def AddOperation (op : FileDrainOperation) (s : FileDrainerSingleThread) :
    FileDrainerSingleThread :=
  { s with operations := s.operations ++ [op] }

/-- One step of the worker thread in `DrainThread` (lines 121-307). -/
def workerStep (acc : FileAccessor) (s : FileDrainerSingleThread) : FileDrainerSingleThread :=
  match s.pc with
  | .polling =>
    -- lines 123-126 and 141-147
    if s.operations.isEmpty then { s with pc := WorkerPC.checkFinish }
    else
      { s with
        pc := WorkerPC.draining,
        maxQueueSize :=
          if s.operations.length > s.maxQueueSize then s.operations.length
          else s.maxQueueSize }
  | .checkFinish =>
    -- lines 127-139, and lines 304-307 after the break
    if s.finish then
      { s with pc := WorkerPC.exited,
               locals := { s.locals with log := s.locals.log ++ [Call.CloseAll] } }
    else { s with pc := WorkerPC.polling }
  | .draining =>
    -- lines 149-298, on the reference fdo to the front of the queue
    match s.operations with
    | [] => { s with pc := WorkerPC.undefined }
    | fdo :: _ =>
      match dispatch acc s.bufferSize fdo s.locals with
      | .ret _ l => { s with pc := WorkerPC.popping, locals := l }
      | .failure l => { s with pc := WorkerPC.terminated, locals := l }
      | .undefined l => { s with pc := WorkerPC.undefined, locals := l }
  | .popping =>
    -- lines 299-301
    match s.operations with
    | [] => { s with pc := WorkerPC.undefined }
    | _ :: rest => { s with pc := WorkerPC.polling, operations := rest }
  | .notStarted => s
  | .exited => s
  | .terminated => s
  | .undefined => s

/-- What can happen next on a running drainer: the worker takes a step, a producer thread
enqueues an operation, or some thread calls `Finish`. -/
inductive Event
  | worker
  | AddOperation (op : FileDrainOperation)
  | Finish
  deriving DecidableEq, Repr

/-- The worker takes `n` steps in a row. -/
def workerSteps (acc : FileAccessor) : Nat → FileDrainerSingleThread → FileDrainerSingleThread
  | 0, s => s
  | n + 1, s => workerSteps acc n (workerStep acc s)

/-- The effect of one event. -/
def step (acc : FileAccessor) (s : FileDrainerSingleThread) : Event → FileDrainerSingleThread
  | .worker => workerStep acc s
  | .AddOperation op => AddOperation op s
  | .Finish => Finish s

/-- The effect of a schedule of events, first event first. -/
def run (acc : FileAccessor) (s : FileDrainerSingleThread) (evs : List Event) :
    FileDrainerSingleThread :=
  evs.foldl (step acc) s

/-- `Join` (lines 58-77). `evs` is what happens on the drainer while the caller is blocked in
`th.join()`; the call returns (`some`) once the worker has exited, after which `th` is no
longer joinable. `none`: the caller is still blocked at the end of `evs`. -/
def Join (acc : FileAccessor) (evs : List Event) (s : FileDrainerSingleThread) :
    Option FileDrainerSingleThread :=
  if s.joinable then
    if (run acc (Finish s) evs).pc = WorkerPC.exited then
      some { run acc (Finish s) evs with joinable := false }
    else none
  else some s

/-- The destructor (line 33). -/
def destructor (acc : FileAccessor) (evs : List Event) (s : FileDrainerSingleThread) :
    Option FileDrainerSingleThread :=
  Join acc evs s

/-! ## Auxiliary definitions used to state the properties -/

/-- The calls of a sequence of chunks of the given sizes: for each size one read from the
source descriptor and one write of the chunk buffer to the destination descriptor. -/
def chunkCalls (fdo : FileDrainOperation) (fdr fdw : Int) : List Nat → List Call
  | [] => []
  | c :: cs =>
    Call.Read fdr c fdo.fromFileName :: Call.Write fdw c Payload.buffer fdo.toFileName ::
      chunkCalls fdo fdr fdw cs

/-- The byte counts requested by the read calls of a trace. -/
def readSizes : List Call → List Nat
  | [] => []
  | Call.Read _ c _ :: cs => c :: readSizes cs
  | _ :: cs => readSizes cs

/-- The byte counts requested by the write calls of a trace. -/
def writeSizes : List Call → List Nat
  | [] => []
  | Call.Write _ c _ _ :: cs => c :: writeSizes cs
  | _ :: cs => writeSizes cs

/-- Whether a call is a seek, a read or a write. -/
def Call.isTransfer : Call → Bool
  | .Seek _ _ _ _ => true
  | .Read _ _ _ => true
  | .Write _ _ _ _ => true
  | _ => false

/-- No call of `cs`, made one after the other after the calls `hist`, throws. -/
def Clean (acc : FileAccessor) (hist : List Call) : List Call → Prop
  | [] => True
  | c :: cs => acc.faults hist c = false ∧ Clean acc (hist ++ [c]) cs

/-- The descriptor the accessor answers when operation `fdo` opens its source (line 156),
the trace being `log` before the dispatch. -/
def srcFd (acc : FileAccessor) (fdo : FileDrainOperation) (log : List Call) : Int :=
  acc.GetFileDescriptor log fdo.fromFileName Mode.Read

/-- The mode in which a copy opens its destination (lines 161-162). -/
def copyMode (fdo : FileDrainOperation) : Mode :=
  if fdo.op = DrainOperation.CopyAt then Mode.Write else Mode.Append

/-- The descriptor the accessor answers when a copy `fdo` opens its destination (line 163),
after the open of the source. -/
def dstFd (acc : FileAccessor) (fdo : FileDrainOperation) (log : List Call) : Int :=
  acc.GetFileDescriptor (log ++ [Call.GetFileDescriptor fdo.fromFileName Mode.Read])
    fdo.toFileName (copyMode fdo)

/-- The sizes of the chunks of a copy of `count` bytes through a buffer of `B` bytes, as
lines 197-206 compute them. -/
def chunkSizes (B count : Nat) : List Nat :=
  List.replicate (count / B) B ++ (if count % B ≠ 0 then [count % B] else [])

/-- The seeks of a copy: two for `CopyAt`, none for `Copy` (lines 185-196). -/
def copySeeks (fdo : FileDrainOperation) (fdr fdw : Int) : List Call :=
  if fdo.op = DrainOperation.CopyAt then
    [Call.Seek fdr fdo.fromOffset fdo.fromFileName Whence.SEEK_SET,
     Call.Seek fdw fdo.toOffset fdo.toFileName Whence.SEEK_SET]
  else []

/-- The two opens of a copy (lines 156 and 163). -/
def copyOpens (fdo : FileDrainOperation) : List Call :=
  [Call.GetFileDescriptor fdo.fromFileName Mode.Read,
   Call.GetFileDescriptor fdo.toFileName (copyMode fdo)]

/-- Whether a piece of code ended in undefined behaviour. -/
def Res.isUndefined {α : Type} : Res α → Bool
  | .undefined _ => true
  | _ => false

/-- What every piece of the dispatch guarantees about the trace: it only grows, by calls
that did not throw, except that a thrown failure comes from the last call made; nothing is
written to `std::cerr`. -/
def Post (acc : FileAccessor) (log : List Call) (cerr : Nat) {α : Type} (r : Res α) : Prop :=
  r.locals.cerrLines = cerr ∧
  match r with
  | .failure l => ∃ cs c, l.log = log ++ cs ++ [c] ∧ Clean acc log cs ∧
      acc.faults (log ++ cs) c = true
  | .ret _ l => ∃ cs, l.log = log ++ cs ∧ Clean acc log cs
  | .undefined l => ∃ cs, l.log = log ++ cs ∧ Clean acc log cs

/-- The scenario of the specification: copy the first 10000 bytes of `src` to `dst`. -/
def copy10000 : FileDrainOperation :=
  { op := DrainOperation.Copy, fromFileName := "src", toFileName := "dst",
    countBytes := 10000, fromOffset := 0, toOffset := 0, dataToWrite := [] }

/-- Whether a call is a seek. -/
def Call.isSeek : Call → Bool
  | .Seek _ _ _ _ => true
  | _ => false

/-- The scenario of the specification: copy 2048 bytes from offset 500 of `src` to offset
2000 of `dst`. -/
def copyAt2048 : FileDrainOperation :=
  { op := DrainOperation.CopyAt, fromFileName := "src", toFileName := "dst",
    countBytes := 2048, fromOffset := 500, toOffset := 2000, dataToWrite := [] }

/-- A write of four bytes from memory to the file `f`. -/
def writeOp : FileDrainOperation :=
  { op := DrainOperation.Write, fromFileName := "", toFileName := "f",
    countBytes := 4, fromOffset := 0, toOffset := 0, dataToWrite := [1, 2, 3, 4] }

/-- A write of four bytes from memory to offset 100 of the file `f`. -/
def writeAtOp : FileDrainOperation :=
  { op := DrainOperation.WriteAt, fromFileName := "", toFileName := "f",
    countBytes := 4, fromOffset := 0, toOffset := 100, dataToWrite := [1, 2, 3, 4] }

/-- A seek to the end of the file `f`. -/
def seekEndOp : FileDrainOperation :=
  { op := DrainOperation.SeekEnd, fromFileName := "", toFileName := "f",
    countBytes := 0, fromOffset := 0, toOffset := 0, dataToWrite := [] }

/-- The creation of the file `g`. -/
def createOp : FileDrainOperation :=
  { op := DrainOperation.Create, fromFileName := "", toFileName := "g",
    countBytes := 0, fromOffset := 0, toOffset := 0, dataToWrite := [] }

/-- An accessor that cannot open anything: every open answers the sentinel -1; the other
calls return, and a read or write moves no byte. -/
def noOpenAccessor : FileAccessor :=
  { errorState := -1
    GetFileDescriptor := fun _ _ _ => -1
    Seek := fun _ _ _ _ _ => true
    Read := fun _ _ _ _ => some 0
    Write := fun _ _ _ _ _ => some 0 }

/-- An accessor that cannot open a file for reading (sentinel -1) and opens the others as
descriptor 4. -/
def noSourceAccessor : FileAccessor :=
  { errorState := -1
    GetFileDescriptor := fun _ _ mode => if mode = Mode.Read then -1 else 4
    Seek := fun _ _ _ _ _ => true
    Read := fun _ _ count _ => some count
    Write := fun _ _ count _ _ => some count }

/-- An accessor whose every write throws; opens, seeks and reads are as in `okAccessor`. -/
def writeFaultAccessor : FileAccessor :=
  { errorState := -1
    GetFileDescriptor := fun _ _ mode => if mode = Mode.Read then 3 else 4
    Seek := fun _ _ _ _ _ => true
    Read := fun _ _ count _ => some count
    Write := fun _ _ _ _ _ => none }

/-- An accessor whose read throws when it is the fifth call made; everything else is as
in `okAccessor`. -/
def readFaultAccessor : FileAccessor :=
  { errorState := -1
    GetFileDescriptor := fun _ _ mode => if mode = Mode.Read then 3 else 4
    Seek := fun _ _ _ _ _ => true
    Read := fun hist _ count _ => if hist.length = 4 then none else some count
    Write := fun _ _ count _ _ => some count }

/-- A machine on which `std::vector<char>` holds any size below `2 ^ 63` (its `max_size()`
with a 64-bit `size_t`). -/
def fitsVector (n : Nat) : Bool := decide (n < 2 ^ 63)

/-- A drainer with buffer size `bufferSize` on which the operations `ops` were enqueued and
the worker then started, on a machine where a vector holds any size below `2 ^ 63`. -/
def started (bufferSize : Nat) (ops : List FileDrainOperation) : FileDrainerSingleThread :=
  Start fitsVector
    (ops.foldl (fun s op => AddOperation op s) (FileDrainerSingleThread.new bufferSize))

/-- Whether no call of a run throws can be computed. -/
def decClean (acc : FileAccessor) : (hist cs : List Call) → Decidable (Clean acc hist cs)
  | _, [] => isTrue True.intro
  | hist, c :: cs =>
    have := decClean acc (hist ++ [c]) cs
    inferInstanceAs (Decidable (acc.faults hist c = false ∧ Clean acc (hist ++ [c]) cs))

instance (acc : FileAccessor) (hist cs : List Call) : Decidable (Clean acc hist cs) :=
  decClean acc hist cs

/-- The number of worker steps in a schedule. -/
def workerCount : List Event → Nat
  | [] => 0
  | Event.worker :: evs => workerCount evs + 1
  | _ :: evs => workerCount evs

/-- The operations a schedule enqueues, in the order of their enqueueing. -/
def pushed : List Event → List FileDrainOperation
  | [] => []
  | Event.AddOperation op :: evs => op :: pushed evs
  | _ :: evs => pushed evs

/-- The operations of a list dispatched one after the other, first to last, on one thread
with nothing in between; it stops at the first dispatch that does not leave the switch by
`break`. -/
def drainAll (acc : FileAccessor) (bufferSize : Nat) :
    List FileDrainOperation → DrainLocals → Res Unit
  | [], l => .ret () l
  | fdo :: rest, l =>
    (dispatch acc bufferSize fdo l).bind fun _ l1 => drainAll acc bufferSize rest l1

/-- The accessor calls made by the dispatch of `fdo` from the locals `l`. -/
def callsOf (acc : FileAccessor) (bufferSize : Nat) (fdo : FileDrainOperation)
    (l : DrainLocals) : List Call :=
  (dispatch acc bufferSize fdo l).locals.log.drop l.log.length

/-- The calls made for the first operation of a list, then those made for the second, and
so on to the last. -/
def callsOfAll (acc : FileAccessor) (bufferSize : Nat) :
    List FileDrainOperation → DrainLocals → List Call
  | [], _ => []
  | fdo :: rest, l =>
    callsOf acc bufferSize fdo l ++
      callsOfAll acc bufferSize rest (dispatch acc bufferSize fdo l).locals

/-- What a schedule `evs` run from `s` must give when the worker's work during it amounts
to `r`: the locals are those of `r`, and when `r` returns, the worker is back at the top
of its loop and the queue holds `todo` followed by what the schedule enqueued. -/
def Reaches (acc : FileAccessor) (s : FileDrainerSingleThread) (evs : List Event)
    (r : Res Unit) (todo : List FileDrainOperation) : Prop :=
  (run acc s evs).locals = r.locals ∧
  ∀ l1, r = Res.ret () l1 →
    (run acc s evs).operations = todo ++ pushed evs ∧
    (run acc s evs).pc = WorkerPC.polling ∧
    (run acc s evs).finish = (s.finish || evs.contains Event.Finish)

/-- The accessor used in the examples: descriptors 3 (read mode) and 4 (other modes),
sentinel -1, every call succeeds in full. -/
def okAccessor : FileAccessor :=
  { errorState := -1
    GetFileDescriptor := fun _ _ mode => if mode = Mode.Read then 3 else 4
    Seek := fun _ _ _ _ _ => true
    Read := fun _ _ count _ => some count
    Write := fun _ _ count _ _ => some count }

/-! ## Lemmas on the trace of one dispatch -/

theorem Clean_append (acc : FileAccessor) (hist a b : List Call) :
    Clean acc hist (a ++ b) ↔ (Clean acc hist a ∧ Clean acc (hist ++ a) b) := by
  induction a generalizing hist with
  | nil => simp [Clean]
  | cons c cs ih =>
    have e : hist ++ c :: cs = hist ++ [c] ++ cs := by simp
    rw [List.cons_append]
    show (_ ∧ Clean acc (hist ++ [c]) (cs ++ b)) ↔ ((_ ∧ Clean acc (hist ++ [c]) cs) ∧ _)
    rw [ih, e]
    tauto

/-- In a clean run no call throws. -/
theorem Clean_no_fault (acc : FileAccessor) (hist pre post : List Call) (c : Call)
    (h : Clean acc hist (pre ++ c :: post)) : acc.faults (hist ++ pre) c = false := by
  rw [Clean_append] at h
  exact h.2.1

theorem Post_ret (acc : FileAccessor) {α : Type} (a : α) (l : DrainLocals)
    (log : List Call) (cerr : Nat) (hl : l.log = log) (hc : l.cerrLines = cerr) :
    Post acc log cerr (Res.ret a l) :=
  ⟨hc, [], by simp [hl], trivial⟩

theorem Post_undefined (acc : FileAccessor) {α : Type} (l : DrainLocals)
    (log : List Call) (cerr : Nat) (hl : l.log = log) (hc : l.cerrLines = cerr) :
    Post acc log cerr (Res.undefined l : Res α) :=
  ⟨hc, [], by simp [hl], trivial⟩

theorem Post_bind (acc : FileAccessor) {α β : Type} (log : List Call) (cerr : Nat)
    (r : Res α) (f : α → DrainLocals → Res β)
    (h1 : Post acc log cerr r)
    (h2 : ∀ a l1, r = Res.ret a l1 → Post acc l1.log l1.cerrLines (f a l1)) :
    Post acc log cerr (r.bind f) := by
  cases r with
  | failure l => exact h1
  | undefined l => exact h1
  | ret a l1 =>
    have h2 := h2 a l1 rfl
    show Post acc log cerr (f a l1)
    obtain ⟨hc1, cs1, hl1, hk1⟩ := h1
    obtain ⟨hc2, h2⟩ := h2
    have hc1 : l1.cerrLines = cerr := hc1
    have hl1 : l1.log = log ++ cs1 := hl1
    refine ⟨by rw [hc2, hc1], ?_⟩
    generalize f a l1 = r at h2
    cases r with
    | ret b l =>
      obtain ⟨cs2, hl2, hk2⟩ := h2
      have hl2 : l.log = l1.log ++ cs2 := hl2
      refine ⟨cs1 ++ cs2, ?_, ?_⟩
      · show l.log = _
        rw [hl2, hl1, List.append_assoc]
      · rw [Clean_append]; exact ⟨hk1, by rw [← hl1]; exact hk2⟩
    | undefined l =>
      obtain ⟨cs2, hl2, hk2⟩ := h2
      have hl2 : l.log = l1.log ++ cs2 := hl2
      refine ⟨cs1 ++ cs2, ?_, ?_⟩
      · show l.log = _
        rw [hl2, hl1, List.append_assoc]
      · rw [Clean_append]; exact ⟨hk1, by rw [← hl1]; exact hk2⟩
    | failure l =>
      obtain ⟨cs2, c, hl2, hk2, hf⟩ := h2
      refine ⟨cs1 ++ cs2, c, ?_, ?_, ?_⟩
      · rw [hl2, hl1]; simp [List.append_assoc]
      · rw [Clean_append]; exact ⟨hk1, by rw [← hl1]; exact hk2⟩
      · rw [← List.append_assoc, ← hl1]; exact hf

theorem Seek_post (acc : FileAccessor) (fd : Int) (offset : Nat) (path : String)
    (whence : Whence) (l : DrainLocals) :
    Post acc l.log l.cerrLines (Seek acc fd offset path whence l) := by
  unfold Seek
  by_cases h : acc.Seek l.log fd offset path whence = true
  · rw [if_pos h]
    exact ⟨rfl, [Call.Seek fd offset path whence], rfl, by simp [Clean, FileAccessor.faults, h]⟩
  · rw [if_neg h]
    exact ⟨rfl, [], Call.Seek fd offset path whence, by simp, trivial,
      by simpa [FileAccessor.faults] using h⟩

theorem Read_post (acc : FileAccessor) (fd : Int) (count : Nat) (path : String)
    (l : DrainLocals) : Post acc l.log l.cerrLines (Read acc fd count path l) := by
  unfold Read
  cases h : acc.Read l.log fd count path with
  | some n =>
    exact ⟨rfl, [Call.Read fd count path], rfl, by simp [Clean, FileAccessor.faults, h]⟩
  | none =>
    exact ⟨rfl, [], Call.Read fd count path, by simp, trivial,
      by simp [FileAccessor.faults, h]⟩

theorem Write_post (acc : FileAccessor) (fd : Int) (count : Nat) (data : Payload)
    (path : String) (l : DrainLocals) :
    Post acc l.log l.cerrLines (Write acc fd count data path l) := by
  unfold Write
  cases h : acc.Write l.log fd count data path with
  | some n =>
    exact ⟨rfl, [Call.Write fd count data path], rfl, by simp [Clean, FileAccessor.faults, h]⟩
  | none =>
    exact ⟨rfl, [], Call.Write fd count data path, by simp, trivial,
      by simp [FileAccessor.faults, h]⟩

theorem lf_Copy_post (acc : FileAccessor) (fdo : FileDrainOperation) (fdr fdw : Int)
    (count : Nat) (l : DrainLocals) :
    Post acc l.log l.cerrLines (lf_Copy acc fdo fdr fdw count l) := by
  unfold lf_Copy
  refine Post_bind acc _ _ _ _ (Read_post acc _ _ _ _) ?_
  intro n l1 _
  refine Post_bind acc _ _ _ _ (Write_post acc _ _ _ _ _) ?_
  intro m l2 _
  exact Post_ret acc _ _ _ _ rfl rfl

theorem copyBatches_post (acc : FileAccessor) (fdo : FileDrainOperation) (fdr fdw : Int)
    (bufferSize : Nat) (b : Nat) (l : DrainLocals) :
    Post acc l.log l.cerrLines (copyBatches acc fdo fdr fdw bufferSize b l) := by
  induction b generalizing l with
  | zero => exact Post_ret acc _ _ _ _ rfl rfl
  | succ b ih =>
    unfold copyBatches
    refine Post_bind acc _ _ _ _ (lf_Copy_post acc _ _ _ _ _) ?_
    intro _ l1 _
    exact ih l1

theorem copyChunks_post (acc : FileAccessor) (bufferSize : Nat) (fdo : FileDrainOperation)
    (fdr fdw : Int) (l : DrainLocals) :
    Post acc l.log l.cerrLines (copyChunks acc bufferSize fdo fdr fdw l) := by
  unfold copyChunks
  split
  · exact Post_undefined acc _ _ _ rfl rfl
  · refine Post_bind acc _ _ _ _ (copyBatches_post acc _ _ _ _ _ _) ?_
    intro _ l1 _
    split
    · exact lf_Copy_post acc _ _ _ _ _
    · exact Post_ret acc _ _ _ _ rfl rfl

theorem copyTry_post (acc : FileAccessor) (bufferSize : Nat) (fdo : FileDrainOperation)
    (fdr fdw : Int) (l : DrainLocals) :
    Post acc l.log l.cerrLines (copyTry acc bufferSize fdo fdr fdw l) := by
  unfold copyTry
  split
  · refine Post_bind acc _ _ _ _ (Seek_post acc _ _ _ _ _) ?_
    intro _ l1 _
    refine Post_bind acc _ _ _ _ (Seek_post acc _ _ _ _ _) ?_
    intro _ l2 _
    exact copyChunks_post acc _ _ _ _ _
  · exact copyChunks_post acc _ _ _ _ _

theorem bind_eq_ret {α β : Type} (r : Res α) (f : α → DrainLocals → Res β) (b : β)
    (l : DrainLocals) (h : r.bind f = Res.ret b l) :
    ∃ a l1, r = Res.ret a l1 ∧ f a l1 = Res.ret b l := by
  cases r with
  | ret a l1 => exact ⟨a, l1, rfl, h⟩
  | failure l1 => simp [Res.bind] at h
  | undefined l1 => simp [Res.bind] at h

theorem Seek_ret (acc : FileAccessor) (fd : Int) (offset : Nat) (path : String)
    (whence : Whence) (l l1 : DrainLocals) (u : Unit)
    (h : Seek acc fd offset path whence l = Res.ret u l1) :
    l1 = { l with log := l.log ++ [Call.Seek fd offset path whence] } := by
  unfold Seek at h
  split at h
  · injection h with _ h2; exact h2.symm
  · simp at h

theorem Read_ret (acc : FileAccessor) (fd : Int) (count : Nat) (path : String)
    (l l1 : DrainLocals) (n : Nat) (h : Read acc fd count path l = Res.ret n l1) :
    l1 = { l with log := l.log ++ [Call.Read fd count path] } := by
  unfold Read at h
  split at h
  · injection h with _ h2; exact h2.symm
  · simp at h

theorem Write_ret (acc : FileAccessor) (fd : Int) (count : Nat) (data : Payload)
    (path : String) (l l1 : DrainLocals) (n : Nat)
    (h : Write acc fd count data path l = Res.ret n l1) :
    l1 = { l with log := l.log ++ [Call.Write fd count data path] } := by
  unfold Write at h
  split at h
  · injection h with _ h2; exact h2.symm
  · simp at h

theorem lf_Copy_ret (acc : FileAccessor) (fdo : FileDrainOperation) (fdr fdw : Int)
    (count : Nat) (l l1 : DrainLocals) (u : Unit)
    (h : lf_Copy acc fdo fdr fdw count l = Res.ret u l1) :
    l1.log = l.log ++ chunkCalls fdo fdr fdw [count] := by
  unfold lf_Copy at h
  obtain ⟨n, la, hR, h⟩ := bind_eq_ret _ _ _ _ h
  obtain ⟨m, lb, hW, h⟩ := bind_eq_ret _ _ _ _ h
  have hR := Read_ret _ _ _ _ _ _ _ hR
  have hW := Write_ret _ _ _ _ _ _ _ _ hW
  injection h with _ h
  subst h; subst hW; subst hR
  simp [chunkCalls]

theorem chunkCalls_append (fdo : FileDrainOperation) (fdr fdw : Int) (a b : List Nat) :
    chunkCalls fdo fdr fdw (a ++ b) = chunkCalls fdo fdr fdw a ++ chunkCalls fdo fdr fdw b := by
  induction a with
  | nil => rfl
  | cons c cs ih => simp [chunkCalls, ih]

theorem copyBatches_ret (acc : FileAccessor) (fdo : FileDrainOperation) (fdr fdw : Int)
    (bufferSize : Nat) (b : Nat) (l l1 : DrainLocals) (u : Unit)
    (h : copyBatches acc fdo fdr fdw bufferSize b l = Res.ret u l1) :
    l1.log = l.log ++ chunkCalls fdo fdr fdw (List.replicate b bufferSize) := by
  induction b generalizing l with
  | zero =>
    unfold copyBatches at h
    injection h with _ h
    subst h
    simp [chunkCalls]
  | succ b ih =>
    unfold copyBatches at h
    obtain ⟨_, la, h1, h2⟩ := bind_eq_ret _ _ _ _ h
    have e1 := lf_Copy_ret _ _ _ _ _ _ _ _ h1
    have e2 := ih la h2
    rw [e2, e1, List.replicate_succ, List.append_assoc]
    rfl

theorem copyChunks_ret (acc : FileAccessor) (bufferSize : Nat) (fdo : FileDrainOperation)
    (fdr fdw : Int) (l l1 : DrainLocals) (u : Unit)
    (h : copyChunks acc bufferSize fdo fdr fdw l = Res.ret u l1) :
    l1.log = l.log ++ chunkCalls fdo fdr fdw (chunkSizes bufferSize fdo.countBytes) := by
  unfold copyChunks at h
  split at h
  · simp at h
  · obtain ⟨_, la, h1, h2⟩ := bind_eq_ret _ _ _ _ h
    have e1 := copyBatches_ret _ _ _ _ _ _ _ _ _ h1
    unfold chunkSizes
    rw [chunkCalls_append, ← List.append_assoc, ← e1]
    split at h2
    · rename_i hne
      rw [if_pos hne]
      exact lf_Copy_ret _ _ _ _ _ _ _ _ h2
    · rename_i hne
      rw [if_neg hne]
      injection h2 with _ h2
      subst h2
      simp [chunkCalls]

theorem copyTry_ret (acc : FileAccessor) (bufferSize : Nat) (fdo : FileDrainOperation)
    (fdr fdw : Int) (l l1 : DrainLocals) (u : Unit)
    (h : copyTry acc bufferSize fdo fdr fdw l = Res.ret u l1) :
    l1.log = l.log ++ copySeeks fdo fdr fdw ++
      chunkCalls fdo fdr fdw (chunkSizes bufferSize fdo.countBytes) := by
  unfold copyTry at h
  unfold copySeeks
  split at h
  · rename_i hop
    rw [if_pos hop]
    obtain ⟨_, la, h1, h⟩ := bind_eq_ret _ _ _ _ h
    obtain ⟨_, lb, h2, h⟩ := bind_eq_ret _ _ _ _ h
    have e1 := Seek_ret _ _ _ _ _ _ _ _ h1
    have e2 := Seek_ret _ _ _ _ _ _ _ _ h2
    have e3 := copyChunks_ret _ _ _ _ _ _ _ _ h
    rw [e3, e2, e1]
    simp
  · rename_i hop
    rw [if_neg hop]
    have e3 := copyChunks_ret _ _ _ _ _ _ _ _ h
    rw [e3]
    simp

theorem chunkSizes_eq (B k r : Nat) (hB : 0 < B) (hr : r < B) :
    chunkSizes B (k * B + r) = List.replicate k B ++ (if 0 < r then [r] else []) := by
  unfold chunkSizes
  have h1 : (k * B + r) / B = k := by
    rw [Nat.add_comm, Nat.add_mul_div_right _ _ hB, Nat.div_eq_of_lt hr, Nat.zero_add]
  have h2 : (k * B + r) % B = r := by
    rw [Nat.add_comm, Nat.add_mul_mod_self_right, Nat.mod_eq_of_lt hr]
  rw [h1, h2]
  by_cases h : 0 < r
  · rw [if_pos h, if_pos (Nat.pos_iff_ne_zero.mp h)]
  · rw [if_neg h, if_neg (by omega)]

theorem readSizes_append (a b : List Call) :
    readSizes (a ++ b) = readSizes a ++ readSizes b := by
  induction a with
  | nil => rfl
  | cons c cs ih => cases c <;> simp [readSizes, ih]

theorem writeSizes_append (a b : List Call) :
    writeSizes (a ++ b) = writeSizes a ++ writeSizes b := by
  induction a with
  | nil => rfl
  | cons c cs ih => cases c <;> simp [writeSizes, ih]

theorem readSizes_chunkCalls (fdo : FileDrainOperation) (fdr fdw : Int) (cs : List Nat) :
    readSizes (chunkCalls fdo fdr fdw cs) = cs := by
  induction cs with
  | nil => rfl
  | cons c cs ih => simp [chunkCalls, readSizes, ih]

theorem writeSizes_chunkCalls (fdo : FileDrainOperation) (fdr fdw : Int) (cs : List Nat) :
    writeSizes (chunkCalls fdo fdr fdw cs) = cs := by
  induction cs with
  | nil => rfl
  | cons c cs ih => simp [chunkCalls, readSizes, writeSizes, ih]

theorem chunkSizes_sum (B count : Nat) : (chunkSizes B count).sum = count := by
  unfold chunkSizes
  rw [List.sum_append, List.sum_replicate]
  by_cases h : count % B ≠ 0
  · rw [if_pos h]
    simp only [List.sum_cons, List.sum_nil, smul_eq_mul, Nat.add_zero]
    exact Nat.div_add_mod' count B
  · rw [if_neg h]
    simp only [List.sum_nil, smul_eq_mul, Nat.add_zero]
    have : count % B = 0 := by omega
    have := Nat.div_add_mod' count B
    omega

theorem bind_isUndefined {α β : Type} (r : Res α) (f : α → DrainLocals → Res β)
    (h1 : r.isUndefined = false) (h2 : ∀ a l, (f a l).isUndefined = false) :
    (r.bind f).isUndefined = false := by
  cases r with
  | ret a l => exact h2 a l
  | failure l => rfl
  | undefined l => simp [Res.isUndefined] at h1

theorem Seek_defined (acc : FileAccessor) (fd : Int) (offset : Nat) (path : String)
    (whence : Whence) (l : DrainLocals) :
    (Seek acc fd offset path whence l).isUndefined = false := by
  unfold Seek; split <;> rfl

theorem Read_defined (acc : FileAccessor) (fd : Int) (count : Nat) (path : String)
    (l : DrainLocals) : (Read acc fd count path l).isUndefined = false := by
  unfold Read; split <;> rfl

theorem Write_defined (acc : FileAccessor) (fd : Int) (count : Nat) (data : Payload)
    (path : String) (l : DrainLocals) :
    (Write acc fd count data path l).isUndefined = false := by
  unfold Write; split <;> rfl

theorem lf_Copy_defined (acc : FileAccessor) (fdo : FileDrainOperation) (fdr fdw : Int)
    (count : Nat) (l : DrainLocals) :
    (lf_Copy acc fdo fdr fdw count l).isUndefined = false := by
  unfold lf_Copy
  refine bind_isUndefined _ _ (Read_defined _ _ _ _ _) ?_
  intro n l1
  refine bind_isUndefined _ _ (Write_defined _ _ _ _ _ _) ?_
  intro m l2
  rfl

theorem copyBatches_defined (acc : FileAccessor) (fdo : FileDrainOperation) (fdr fdw : Int)
    (bufferSize : Nat) (b : Nat) (l : DrainLocals) :
    (copyBatches acc fdo fdr fdw bufferSize b l).isUndefined = false := by
  induction b generalizing l with
  | zero => rfl
  | succ b ih =>
    unfold copyBatches
    exact bind_isUndefined _ _ (lf_Copy_defined _ _ _ _ _ _) (fun _ l1 => ih l1)

theorem copyChunks_defined (acc : FileAccessor) (bufferSize : Nat) (hB : 0 < bufferSize)
    (fdo : FileDrainOperation) (fdr fdw : Int) (l : DrainLocals) :
    (copyChunks acc bufferSize fdo fdr fdw l).isUndefined = false := by
  unfold copyChunks
  rw [if_neg (by omega)]
  refine bind_isUndefined _ _ (copyBatches_defined _ _ _ _ _ _ _) ?_
  intro _ l1
  split
  · exact lf_Copy_defined _ _ _ _ _ _
  · rfl

theorem copyTry_defined (acc : FileAccessor) (bufferSize : Nat) (hB : 0 < bufferSize)
    (fdo : FileDrainOperation) (fdr fdw : Int) (l : DrainLocals) :
    (copyTry acc bufferSize fdo fdr fdw l).isUndefined = false := by
  unfold copyTry
  split
  · refine bind_isUndefined _ _ (Seek_defined _ _ _ _ _ _) ?_
    intro _ l1
    refine bind_isUndefined _ _ (Seek_defined _ _ _ _ _ _) ?_
    intro _ l2
    exact copyChunks_defined _ _ hB _ _ _ _
  · exact copyChunks_defined _ _ hB _ _ _ _

/-- The locals after the two opens of a copy. -/
theorem dispatchCopy_unfold (acc : FileAccessor) (bufferSize : Nat)
    (fdo : FileDrainOperation) (l : DrainLocals) :
    dispatchCopy acc bufferSize fdo l =
      if srcFd acc fdo l.log ≠ acc.errorState ∧ dstFd acc fdo l.log ≠ acc.errorState then
        match copyTry acc bufferSize fdo (srcFd acc fdo l.log) (dstFd acc fdo l.log)
            { l with log := l.log ++ copyOpens fdo } with
        | .ret _ l1 => .ret () l1
        | .failure l1 => .ret () { l1 with cerrLines := l1.cerrLines + 1 }
        | .undefined l1 => .undefined l1
      else .ret () { l with log := l.log ++ copyOpens fdo } := by
  simp [dispatchCopy, GetFileDescriptor, srcFd, dstFd, copyOpens, copyMode]

/-- The outcome of a copy whose two opens succeeded, with a non-zero buffer size: either
the whole transfer ran and no call threw, or some call threw, it was the last call made,
and one line went to `std::cerr`. In both cases the switch is left by `break`. -/
theorem dispatchCopy_opened (acc : FileAccessor) (B : Nat) (fdo : FileDrainOperation)
    (l : DrainLocals) (hB : 0 < B)
    (hsrc : srcFd acc fdo l.log ≠ acc.errorState)
    (hdst : dstFd acc fdo l.log ≠ acc.errorState) :
    (∃ l1, dispatchCopy acc B fdo l = Res.ret () l1 ∧ l1.cerrLines = l.cerrLines ∧
      l1.log = l.log ++ (copyOpens fdo ++
        copySeeks fdo (srcFd acc fdo l.log) (dstFd acc fdo l.log) ++
        chunkCalls fdo (srcFd acc fdo l.log) (dstFd acc fdo l.log)
          (chunkSizes B fdo.countBytes)) ∧
      Clean acc l.log (copyOpens fdo ++
        copySeeks fdo (srcFd acc fdo l.log) (dstFd acc fdo l.log) ++
        chunkCalls fdo (srcFd acc fdo l.log) (dstFd acc fdo l.log)
          (chunkSizes B fdo.countBytes))) ∨
    (∃ l1 cs c, dispatchCopy acc B fdo l = Res.ret () l1 ∧
      l1.cerrLines = l.cerrLines + 1 ∧
      l1.log = l.log ++ (copyOpens fdo ++ cs ++ [c]) ∧
      Clean acc l.log (copyOpens fdo ++ cs) ∧
      acc.faults (l.log ++ (copyOpens fdo ++ cs)) c = true) := by
  rw [dispatchCopy_unfold, if_pos ⟨hsrc, hdst⟩]
  have hpost := copyTry_post acc B fdo (srcFd acc fdo l.log) (dstFd acc fdo l.log)
    { l with log := l.log ++ copyOpens fdo }
  have hdef := copyTry_defined acc B hB fdo (srcFd acc fdo l.log) (dstFd acc fdo l.log)
    { l with log := l.log ++ copyOpens fdo }
  have hopens : Clean acc l.log (copyOpens fdo) := by
    simp [copyOpens, Clean, FileAccessor.faults]
  cases hres : copyTry acc B fdo (srcFd acc fdo l.log) (dstFd acc fdo l.log)
    { l with log := l.log ++ copyOpens fdo } with
  | undefined l1 => rw [hres] at hdef; simp [Res.isUndefined] at hdef
  | ret u l1 =>
    left
    rw [hres] at hpost
    obtain ⟨hc, cs, hlog, hclean⟩ := hpost
    have hexact := copyTry_ret _ _ _ _ _ _ _ _ hres
    have hlog : l1.log = l.log ++ copyOpens fdo ++ cs := hlog
    have hexact : l1.log = l.log ++ copyOpens fdo ++
        copySeeks fdo (srcFd acc fdo l.log) (dstFd acc fdo l.log) ++
        chunkCalls fdo (srcFd acc fdo l.log) (dstFd acc fdo l.log)
          (chunkSizes B fdo.countBytes) := hexact
    have hcs : cs = copySeeks fdo (srcFd acc fdo l.log) (dstFd acc fdo l.log) ++
        chunkCalls fdo (srcFd acc fdo l.log) (dstFd acc fdo l.log)
          (chunkSizes B fdo.countBytes) := by
      rw [hlog, List.append_assoc (l.log ++ copyOpens fdo)] at hexact
      exact List.append_cancel_left hexact
    refine ⟨l1, rfl, hc, ?_, ?_⟩
    · rw [hexact]; simp [List.append_assoc]
    · rw [List.append_assoc, Clean_append]
      refine ⟨hopens, ?_⟩
      rw [← hcs]
      exact hclean
  | failure l1 =>
    right
    rw [hres] at hpost
    obtain ⟨hc, cs, c, hlog, hclean, hf⟩ := hpost
    have hlog : l1.log = l.log ++ copyOpens fdo ++ cs ++ [c] := hlog
    have hc : l1.cerrLines = l.cerrLines := hc
    refine ⟨_, cs, c, rfl, ?_, ?_, ?_, ?_⟩
    · show l1.cerrLines + 1 = _
      rw [hc]
    · show l1.log = _
      rw [hlog]; simp [List.append_assoc]
    · rw [Clean_append]
      exact ⟨hopens, hclean⟩
    · rw [← List.append_assoc]
      exact hf

theorem dispatch_copy_eq (acc : FileAccessor) (B : Nat) (fdo : FileDrainOperation)
    (l : DrainLocals) (hop : fdo.op = DrainOperation.Copy ∨ fdo.op = DrainOperation.CopyAt) :
    dispatch acc B fdo l = dispatchCopy acc B fdo l := by
  unfold dispatch
  rcases hop with h | h <;> rw [h]

/-- C1. Chunk decomposition of Copy/CopyAt: with a buffer of `B > 0` bytes and
`countBytes = k * B + r`, `r < B`, when both opens succeed and no call of the dispatch
throws, the dispatch makes, after its opens and seeks, exactly `k` chunk transfers of `B`
bytes followed by one of `r` bytes exactly when `r > 0`; each chunk is one read and one
write of the same size, and the sizes requested sum to `countBytes` for the reads and for
the writes. -/
theorem chunk_decomposition (acc : FileAccessor) (B k r : Nat) (fdo : FileDrainOperation)
    (l : DrainLocals) (hB : 0 < B) (hr : r < B) (hcount : fdo.countBytes = k * B + r)
    (hop : fdo.op = DrainOperation.Copy ∨ fdo.op = DrainOperation.CopyAt)
    (hsrc : srcFd acc fdo l.log ≠ acc.errorState)
    (hdst : dstFd acc fdo l.log ≠ acc.errorState)
    (hnofault : ∀ cs, (dispatch acc B fdo l).locals.log = l.log ++ cs → Clean acc l.log cs) :
    ∃ cs, (dispatch acc B fdo l).locals.log = l.log ++ cs ∧
      cs = copyOpens fdo ++ copySeeks fdo (srcFd acc fdo l.log) (dstFd acc fdo l.log) ++
        chunkCalls fdo (srcFd acc fdo l.log) (dstFd acc fdo l.log)
          (List.replicate k B ++ (if 0 < r then [r] else [])) ∧
      readSizes cs = List.replicate k B ++ (if 0 < r then [r] else []) ∧
      writeSizes cs = List.replicate k B ++ (if 0 < r then [r] else []) ∧
      (readSizes cs).sum = fdo.countBytes ∧ (writeSizes cs).sum = fdo.countBytes := by
  rw [dispatch_copy_eq acc B fdo l hop] at hnofault ⊢
  have hsz := chunkSizes_eq B k r hB hr
  have hsum := chunkSizes_sum B fdo.countBytes
  rw [hcount] at hsum
  rcases dispatchCopy_opened acc B fdo l hB hsrc hdst with
    ⟨l1, hres, _, hlog, _⟩ | ⟨l1, cs, c, hres, _, hlog, _, hf⟩
  · rw [hres]
    rw [hcount, hsz] at hlog
    rw [hsz] at hsum
    refine ⟨_, hlog, rfl, ?_, ?_, ?_, ?_⟩
    · rw [readSizes_append, readSizes_append, readSizes_chunkCalls]
      unfold copyOpens copySeeks
      split <;> simp [readSizes]
    · rw [writeSizes_append, writeSizes_append, writeSizes_chunkCalls]
      unfold copyOpens copySeeks
      split <;> simp [writeSizes]
    · rw [readSizes_append, readSizes_append, readSizes_chunkCalls, hcount, ← hsum]
      unfold copyOpens copySeeks
      split <;> simp [readSizes]
    · rw [writeSizes_append, writeSizes_append, writeSizes_chunkCalls, hcount, ← hsum]
      unfold copyOpens copySeeks
      split <;> simp [writeSizes]
  · rw [hres] at hnofault
    have hclean := hnofault _ hlog
    have := Clean_no_fault acc l.log (copyOpens fdo ++ cs) [] c hclean
    rw [hf] at this
    cases this

/-- The accessor `okAccessor` never throws. -/
theorem okAccessor_clean (hist cs : List Call) : Clean okAccessor hist cs := by
  induction cs generalizing hist with
  | nil => trivial
  | cons c cs ih =>
    refine ⟨?_, ih _⟩
    cases c <;> rfl

/-- C1, at the scenario of the specification: 10000 bytes through a buffer of 4096 bytes
are three transfers of 4096, 4096 and 1808 bytes. -/
theorem chunk_decomposition_witness :
    (dispatch okAccessor 4096 copy10000 (DrainLocals.start [] 0)).locals.log =
      [Call.GetFileDescriptor "src" Mode.Read, Call.GetFileDescriptor "dst" Mode.Append,
       Call.Read 3 4096 "src", Call.Write 4 4096 Payload.buffer "dst",
       Call.Read 3 4096 "src", Call.Write 4 4096 Payload.buffer "dst",
       Call.Read 3 1808 "src", Call.Write 4 1808 Payload.buffer "dst"] ∧
    ∃ cs, (dispatch okAccessor 4096 copy10000 (DrainLocals.start [] 0)).locals.log =
        (DrainLocals.start [] 0).log ++ cs ∧
      cs = copyOpens copy10000 ++ copySeeks copy10000 3 4 ++
        chunkCalls copy10000 3 4 (List.replicate 2 4096 ++ (if 0 < 1808 then [1808] else [])) ∧
      readSizes cs = [4096, 4096, 1808] ∧
      writeSizes cs = [4096, 4096, 1808] ∧
      (readSizes cs).sum = 10000 ∧ (writeSizes cs).sum = 10000 :=
  ⟨by decide,
   chunk_decomposition okAccessor 4096 2 1808 copy10000 (DrainLocals.start [] 0)
     (by decide) (by decide) (by decide) (Or.inl rfl) (by decide) (by decide)
     (fun cs _ => okAccessor_clean _ cs)⟩

theorem Post_log (acc : FileAccessor) {α : Type} (log : List Call) (cerr : Nat) (r : Res α)
    (h : Post acc log cerr r) : ∃ cs, r.locals.log = log ++ cs := by
  obtain ⟨_, h⟩ := h
  cases r with
  | ret a l => obtain ⟨cs, h, _⟩ := h; exact ⟨cs, h⟩
  | undefined l => obtain ⟨cs, h, _⟩ := h; exact ⟨cs, h⟩
  | failure l =>
    obtain ⟨cs, c, h, _⟩ := h
    exact ⟨cs ++ [c], by show l.log = _; rw [h, List.append_assoc]⟩

/-- The outcome of a copy whose two opens succeeded, whatever the buffer size. -/
theorem dispatchCopy_outcome (acc : FileAccessor) (B : Nat) (fdo : FileDrainOperation)
    (l : DrainLocals)
    (hsrc : srcFd acc fdo l.log ≠ acc.errorState)
    (hdst : dstFd acc fdo l.log ≠ acc.errorState) :
    (∃ l1 cs, dispatchCopy acc B fdo l = Res.ret () l1 ∧ l1.cerrLines = l.cerrLines ∧
      l1.log = l.log ++ cs ∧ Clean acc l.log cs) ∨
    (∃ l1 cs c, dispatchCopy acc B fdo l = Res.ret () l1 ∧
      l1.cerrLines = l.cerrLines + 1 ∧ l1.log = l.log ++ (cs ++ [c]) ∧
      Clean acc l.log cs ∧ acc.faults (l.log ++ cs) c = true) ∨
    (∃ l1 cs, dispatchCopy acc B fdo l = Res.undefined l1 ∧
      l1.log = l.log ++ cs ∧ Clean acc l.log cs) := by
  rw [dispatchCopy_unfold, if_pos ⟨hsrc, hdst⟩]
  have hpost := copyTry_post acc B fdo (srcFd acc fdo l.log) (dstFd acc fdo l.log)
    { l with log := l.log ++ copyOpens fdo }
  have hopens : Clean acc l.log (copyOpens fdo) := by
    simp [copyOpens, Clean, FileAccessor.faults]
  cases hres : copyTry acc B fdo (srcFd acc fdo l.log) (dstFd acc fdo l.log)
    { l with log := l.log ++ copyOpens fdo } with
  | undefined l1 =>
    right; right
    rw [hres] at hpost
    obtain ⟨_, cs, hlog, hclean⟩ := hpost
    have hlog : l1.log = l.log ++ copyOpens fdo ++ cs := hlog
    refine ⟨l1, copyOpens fdo ++ cs, rfl, by rw [hlog, List.append_assoc], ?_⟩
    rw [Clean_append]; exact ⟨hopens, hclean⟩
  | ret u l1 =>
    left
    rw [hres] at hpost
    obtain ⟨hc, cs, hlog, hclean⟩ := hpost
    have hlog : l1.log = l.log ++ copyOpens fdo ++ cs := hlog
    refine ⟨l1, copyOpens fdo ++ cs, rfl, hc, by rw [hlog, List.append_assoc], ?_⟩
    rw [Clean_append]; exact ⟨hopens, hclean⟩
  | failure l1 =>
    right; left
    rw [hres] at hpost
    obtain ⟨hc, cs, c, hlog, hclean, hf⟩ := hpost
    have hlog : l1.log = l.log ++ copyOpens fdo ++ cs ++ [c] := hlog
    have hc : l1.cerrLines = l.cerrLines := hc
    refine ⟨_, copyOpens fdo ++ cs, c, rfl, ?_, ?_, ?_, ?_⟩
    · show l1.cerrLines + 1 = _
      rw [hc]
    · show l1.log = _
      rw [hlog]; simp [List.append_assoc]
    · rw [Clean_append]
      exact ⟨hopens, hclean⟩
    · rw [← List.append_assoc]
      exact hf

/-- A copy one of whose opens failed: only the two opens are made. -/
theorem dispatchCopy_open_failed (acc : FileAccessor) (B : Nat) (fdo : FileDrainOperation)
    (l : DrainLocals)
    (hfail : srcFd acc fdo l.log = acc.errorState ∨ dstFd acc fdo l.log = acc.errorState) :
    dispatchCopy acc B fdo l = Res.ret () { l with log := l.log ++ copyOpens fdo } := by
  rw [dispatchCopy_unfold, if_neg]
  rintro ⟨h1, h2⟩
  rcases hfail with h | h
  · exact h1 h
  · exact h2 h

theorem split_last {α : Type} (pre post cs : List α) (c d : α)
    (h : pre ++ c :: post = cs ++ [d]) :
    post = [] ∨ ∃ post1, post = post1 ++ [d] ∧ cs = pre ++ c :: post1 := by
  rcases List.eq_nil_or_concat post with hp | ⟨post1, x, hp⟩
  · exact Or.inl hp
  · right
    subst hp
    have h2 : (pre ++ c :: post1) ++ [x] = cs ++ [d] := by
      rw [← h]; simp
    have h3 := List.append_inj' h2 rfl
    obtain ⟨h4, h5⟩ := h3
    injection h5 with h5 _
    exact ⟨post1, by rw [h5]; simp, h4.symm⟩

/-! ## Lemmas on the worker cycle -/

theorem workerSteps_add (acc : FileAccessor) (m n : Nat) (s : FileDrainerSingleThread) :
    workerSteps acc (m + n) s = workerSteps acc n (workerSteps acc m s) := by
  induction m generalizing s with
  | zero => simp [workerSteps]
  | succ m ih =>
    rw [Nat.succ_add]
    exact ih (workerStep acc s)

/-- The first two steps of a cycle on a non-empty queue: the front is looked at, then
dispatched. -/
theorem cycle_dispatch (acc : FileAccessor) (s : FileDrainerSingleThread)
    (fdo : FileDrainOperation) (rest : List FileDrainOperation)
    (hpc : s.pc = WorkerPC.polling) (hq : s.operations = fdo :: rest) :
    (workerSteps acc 1 s).pc = WorkerPC.draining ∧
    (workerSteps acc 1 s).operations = fdo :: rest ∧
    (workerSteps acc 1 s).locals = s.locals ∧
    (workerSteps acc 2 s).locals = (dispatch acc s.bufferSize fdo s.locals).locals ∧
    (workerSteps acc 2 s).operations = fdo :: rest ∧
    (workerSteps acc 2 s).bufferSize = s.bufferSize := by
  simp only [workerSteps, workerStep, hpc, hq, List.isEmpty_cons, Bool.false_eq_true,
    if_false]
  cases dispatch acc s.bufferSize fdo s.locals <;> simp [Res.locals]

/-- A cycle whose dispatch leaves the switch by `break`: the operation dispatched is
removed and the worker turns to what is then the front of the queue. -/
theorem cycle_continues (acc : FileAccessor) (s : FileDrainerSingleThread)
    (fdo : FileDrainOperation) (rest : List FileDrainOperation) (l1 : DrainLocals)
    (hpc : s.pc = WorkerPC.polling) (hq : s.operations = fdo :: rest)
    (hret : dispatch acc s.bufferSize fdo s.locals = Res.ret () l1) :
    (workerSteps acc 2 s).pc = WorkerPC.popping ∧
    (workerSteps acc 3 s).pc = WorkerPC.polling ∧
    (workerSteps acc 3 s).operations = rest ∧
    (workerSteps acc 3 s).locals = l1 ∧
    (∀ next rest1, rest = next :: rest1 →
      (workerSteps acc 4 s).pc = WorkerPC.draining ∧
      (workerSteps acc 4 s).operations = next :: rest1 ∧
      (workerSteps acc 5 s).locals = (dispatch acc s.bufferSize next l1).locals) := by
  have h3 : workerSteps acc 3 s =
      { s with pc := WorkerPC.polling, operations := rest, locals := l1,
               maxQueueSize := if s.operations.length > s.maxQueueSize
                 then s.operations.length else s.maxQueueSize } := by
    simp only [workerSteps, workerStep, hpc, hq, List.isEmpty_cons, Bool.false_eq_true,
      if_false, hret]
  refine ⟨?_, by rw [h3], by rw [h3], by rw [h3], ?_⟩
  · simp only [workerSteps, workerStep, hpc, hq, List.isEmpty_cons, Bool.false_eq_true,
      if_false, hret]
  · intro next rest1 hrest
    have hc := cycle_dispatch acc (workerSteps acc 3 s) next rest1 (by rw [h3])
      (by rw [h3]; exact hrest)
    rw [← workerSteps_add, ← workerSteps_add] at hc
    obtain ⟨c1, c2, _, c4, _, _⟩ := hc
    refine ⟨c1, c2, ?_⟩
    rw [c4, h3]

/-! ## Properties of one dispatch -/

/-- C10. In a Copy or CopyAt dispatch both opens are always made, the source first in Read
mode, then the destination in Append mode (Copy) or Write mode (CopyAt), whatever the
first open answered; when the source open answers the error sentinel the destination is
still opened and these two opens are all the dispatch does. -/
theorem copy_opens_both (acc : FileAccessor) (B : Nat) (fdo : FileDrainOperation)
    (l : DrainLocals)
    (hop : fdo.op = DrainOperation.Copy ∨ fdo.op = DrainOperation.CopyAt) :
    (∃ cs, (dispatch acc B fdo l).locals.log =
      l.log ++ [Call.GetFileDescriptor fdo.fromFileName Mode.Read,
        Call.GetFileDescriptor fdo.toFileName
          (if fdo.op = DrainOperation.CopyAt then Mode.Write else Mode.Append)] ++ cs) ∧
    (acc.GetFileDescriptor l.log fdo.fromFileName Mode.Read = acc.errorState →
      dispatch acc B fdo l = Res.ret ()
        { l with log := l.log ++ [Call.GetFileDescriptor fdo.fromFileName Mode.Read,
            Call.GetFileDescriptor fdo.toFileName
              (if fdo.op = DrainOperation.CopyAt then Mode.Write else Mode.Append)] }) := by
  rw [dispatch_copy_eq acc B fdo l hop]
  constructor
  · rw [dispatchCopy_unfold]
    split
    · have hpost := copyTry_post acc B fdo (srcFd acc fdo l.log) (dstFd acc fdo l.log)
        { l with log := l.log ++ copyOpens fdo }
      obtain ⟨cs, hcs⟩ := Post_log _ _ _ _ hpost
      refine ⟨cs, ?_⟩
      have hcs : (copyTry acc B fdo (srcFd acc fdo l.log) (dstFd acc fdo l.log)
          { l with log := l.log ++ copyOpens fdo }).locals.log =
          l.log ++ [Call.GetFileDescriptor fdo.fromFileName Mode.Read,
            Call.GetFileDescriptor fdo.toFileName
              (if fdo.op = DrainOperation.CopyAt then Mode.Write else Mode.Append)] ++ cs := hcs
      rw [← hcs]
      cases copyTry acc B fdo (srcFd acc fdo l.log) (dstFd acc fdo l.log)
        { l with log := l.log ++ copyOpens fdo } <;> rfl
    · exact ⟨[], by simp [Res.locals, copyOpens, copyMode]⟩
  · intro h
    exact dispatchCopy_open_failed acc B fdo l (Or.inl h)

/-- C10, on a CopyAt whose source cannot be opened: the destination is still opened, in
Write mode. -/
theorem copy_opens_both_witness :
    (∃ cs, (dispatch noSourceAccessor 1024 copyAt2048 (DrainLocals.start [] 0)).locals.log =
      [] ++ [Call.GetFileDescriptor "src" Mode.Read,
             Call.GetFileDescriptor "dst" Mode.Write] ++ cs) ∧
    (noSourceAccessor.GetFileDescriptor [] "src" Mode.Read = noSourceAccessor.errorState →
      dispatch noSourceAccessor 1024 copyAt2048 (DrainLocals.start [] 0) = Res.ret ()
        { DrainLocals.start [] 0 with
          log := [] ++ [Call.GetFileDescriptor "src" Mode.Read,
                        Call.GetFileDescriptor "dst" Mode.Write] }) :=
  copy_opens_both noSourceAccessor 1024 copyAt2048 (DrainLocals.start [] 0) (Or.inr rfl)

theorem filter_isSeek_chunkCalls (fdo : FileDrainOperation) (fdr fdw : Int) (cs : List Nat) :
    (chunkCalls fdo fdr fdw cs).filter Call.isSeek = [] := by
  induction cs with
  | nil => rfl
  | cons c cs ih => simp [chunkCalls, Call.isSeek, ih]

/-- C8. Seeks of each kind, when no call of the dispatch throws (and, for the copies, both
opens succeed and the buffer size is not zero): a CopyAt seeks the source to `fromOffset`
and then the destination to `toOffset`, both before its first read; a WriteAt seeks once,
to `toOffset`, before its single write of `countBytes` bytes; a SeekEnd seeks once, to
offset 0 from the end of the destination, and neither reads nor writes; Copy, Write,
Create and Open do not seek. -/
theorem seek_semantics (acc : FileAccessor) (B : Nat) (fdo : FileDrainOperation)
    (l : DrainLocals)
    (hnofault : ∀ cs, (dispatch acc B fdo l).locals.log = l.log ++ cs → Clean acc l.log cs) :
    (fdo.op = DrainOperation.CopyAt → 0 < B → srcFd acc fdo l.log ≠ acc.errorState →
      dstFd acc fdo l.log ≠ acc.errorState →
      (dispatch acc B fdo l).locals.log = l.log ++
        ([Call.GetFileDescriptor fdo.fromFileName Mode.Read,
          Call.GetFileDescriptor fdo.toFileName Mode.Write,
          Call.Seek (srcFd acc fdo l.log) fdo.fromOffset fdo.fromFileName Whence.SEEK_SET,
          Call.Seek (dstFd acc fdo l.log) fdo.toOffset fdo.toFileName Whence.SEEK_SET] ++
         chunkCalls fdo (srcFd acc fdo l.log) (dstFd acc fdo l.log)
           (chunkSizes B fdo.countBytes)) ∧
      (chunkCalls fdo (srcFd acc fdo l.log) (dstFd acc fdo l.log)
        (chunkSizes B fdo.countBytes)).filter Call.isSeek = []) ∧
    (fdo.op = DrainOperation.Copy → 0 < B → srcFd acc fdo l.log ≠ acc.errorState →
      dstFd acc fdo l.log ≠ acc.errorState →
      (dispatch acc B fdo l).locals.log = l.log ++
        ([Call.GetFileDescriptor fdo.fromFileName Mode.Read,
          Call.GetFileDescriptor fdo.toFileName Mode.Append] ++
         chunkCalls fdo (srcFd acc fdo l.log) (dstFd acc fdo l.log)
           (chunkSizes B fdo.countBytes)) ∧
      (chunkCalls fdo (srcFd acc fdo l.log) (dstFd acc fdo l.log)
        (chunkSizes B fdo.countBytes)).filter Call.isSeek = []) ∧
    (fdo.op = DrainOperation.WriteAt →
      (dispatch acc B fdo l).locals.log = l.log ++
        [Call.GetFileDescriptor fdo.toFileName Mode.Write,
         Call.Seek (acc.GetFileDescriptor l.log fdo.toFileName Mode.Write) fdo.toOffset
           fdo.toFileName Whence.SEEK_SET,
         Call.Write (acc.GetFileDescriptor l.log fdo.toFileName Mode.Write) fdo.countBytes
           (Payload.memory fdo.dataToWrite) fdo.toFileName]) ∧
    (fdo.op = DrainOperation.SeekEnd →
      (dispatch acc B fdo l).locals.log = l.log ++
        [Call.GetFileDescriptor fdo.toFileName Mode.Write,
         Call.Seek (acc.GetFileDescriptor l.log fdo.toFileName Mode.Write) 0
           fdo.toFileName Whence.SEEK_END]) ∧
    (fdo.op = DrainOperation.Write →
      (dispatch acc B fdo l).locals.log = l.log ++
        [Call.GetFileDescriptor fdo.toFileName Mode.Write,
         Call.Write (acc.GetFileDescriptor l.log fdo.toFileName Mode.Write) fdo.countBytes
           (Payload.memory fdo.dataToWrite) fdo.toFileName]) ∧
    (fdo.op = DrainOperation.Create →
      (dispatch acc B fdo l).locals.log =
        l.log ++ [Call.GetFileDescriptor fdo.toFileName Mode.Write]) ∧
    (fdo.op = DrainOperation.Open →
      (dispatch acc B fdo l).locals.log =
        l.log ++ [Call.GetFileDescriptor fdo.toFileName Mode.Append]) := by
  have hcopy : (fdo.op = DrainOperation.Copy ∨ fdo.op = DrainOperation.CopyAt) → 0 < B →
      srcFd acc fdo l.log ≠ acc.errorState → dstFd acc fdo l.log ≠ acc.errorState →
      (dispatch acc B fdo l).locals.log = l.log ++ (copyOpens fdo ++
        copySeeks fdo (srcFd acc fdo l.log) (dstFd acc fdo l.log) ++
        chunkCalls fdo (srcFd acc fdo l.log) (dstFd acc fdo l.log)
          (chunkSizes B fdo.countBytes)) := by
    intro hop hB hsrc hdst
    rw [dispatch_copy_eq acc B fdo l hop] at hnofault ⊢
    rcases dispatchCopy_opened acc B fdo l hB hsrc hdst with
      ⟨l1, hres, _, hlog, _⟩ | ⟨l1, cs, c, hres, _, hlog, _, hf⟩
    · rw [hres]; exact hlog
    · rw [hres] at hnofault
      have hclean := hnofault _ hlog
      have := Clean_no_fault acc l.log (copyOpens fdo ++ cs) [] c hclean
      rw [hf] at this
      cases this
  refine ⟨?_, ?_, ?_, ?_, ?_, ?_, ?_⟩
  · intro hop hB hsrc hdst
    refine ⟨?_, filter_isSeek_chunkCalls _ _ _ _⟩
    rw [hcopy (Or.inr hop) hB hsrc hdst]
    simp [copyOpens, copySeeks, copyMode, hop]
  · intro hop hB hsrc hdst
    refine ⟨?_, filter_isSeek_chunkCalls _ _ _ _⟩
    rw [hcopy (Or.inl hop) hB hsrc hdst]
    simp [copyOpens, copySeeks, copyMode, hop]
  · intro hop
    by_cases hs : acc.Seek (l.log ++ [Call.GetFileDescriptor fdo.toFileName Mode.Write])
        (acc.GetFileDescriptor l.log fdo.toFileName Mode.Write) fdo.toOffset fdo.toFileName
        Whence.SEEK_SET = true
    · cases hw : acc.Write (l.log ++ [Call.GetFileDescriptor fdo.toFileName Mode.Write,
          Call.Seek (acc.GetFileDescriptor l.log fdo.toFileName Mode.Write) fdo.toOffset
            fdo.toFileName Whence.SEEK_SET])
          (acc.GetFileDescriptor l.log fdo.toFileName Mode.Write) fdo.countBytes
          (Payload.memory fdo.dataToWrite) fdo.toFileName with
      | some n =>
        simp [dispatch, hop, dispatchWriteAt, GetFileDescriptor, Seek, Write, Res.bind,
          Res.locals, hs, hw]
      | none =>
        exfalso
        have h := hnofault [Call.GetFileDescriptor fdo.toFileName Mode.Write,
          Call.Seek (acc.GetFileDescriptor l.log fdo.toFileName Mode.Write) fdo.toOffset
            fdo.toFileName Whence.SEEK_SET,
          Call.Write (acc.GetFileDescriptor l.log fdo.toFileName Mode.Write) fdo.countBytes
            (Payload.memory fdo.dataToWrite) fdo.toFileName]
          (by simp [dispatch, hop, dispatchWriteAt, GetFileDescriptor, Seek, Write,
                Res.bind, Res.locals, hs, hw])
        simp [Clean, FileAccessor.faults, hs, hw] at h
    · exfalso
      have h := hnofault [Call.GetFileDescriptor fdo.toFileName Mode.Write,
        Call.Seek (acc.GetFileDescriptor l.log fdo.toFileName Mode.Write) fdo.toOffset
          fdo.toFileName Whence.SEEK_SET]
        (by simp [dispatch, hop, dispatchWriteAt, GetFileDescriptor, Seek, Write,
              Res.bind, Res.locals, hs])
      simp [Clean, FileAccessor.faults, hs] at h
  · intro hop
    by_cases hs : acc.Seek (l.log ++ [Call.GetFileDescriptor fdo.toFileName Mode.Write])
        (acc.GetFileDescriptor l.log fdo.toFileName Mode.Write) 0 fdo.toFileName
        Whence.SEEK_END = true
    · simp [dispatch, hop, dispatchSeekEnd, GetFileDescriptor, Seek, Res.locals, hs]
    · simp [dispatch, hop, dispatchSeekEnd, GetFileDescriptor, Seek, Res.locals, hs]
  · intro hop
    cases hw : acc.Write (l.log ++ [Call.GetFileDescriptor fdo.toFileName Mode.Write])
        (acc.GetFileDescriptor l.log fdo.toFileName Mode.Write) fdo.countBytes
        (Payload.memory fdo.dataToWrite) fdo.toFileName with
    | some n =>
      simp [dispatch, hop, dispatchWrite, GetFileDescriptor, Write, Res.bind,
        Res.locals, hw]
    | none =>
      simp [dispatch, hop, dispatchWrite, GetFileDescriptor, Write, Res.bind,
        Res.locals, hw]
  · intro hop
    simp [dispatch, hop, GetFileDescriptor, Res.locals]
  · intro hop
    simp [dispatch, hop, GetFileDescriptor, Res.locals]

/-- C8, at the scenario of the specification: with a buffer of 1024 bytes, a CopyAt of
2048 bytes from offset 500 to offset 2000 seeks the source to 500, the destination to
2000, and then moves two chunks of 1024 bytes. -/
theorem seek_semantics_witness :
    (dispatch okAccessor 1024 copyAt2048 (DrainLocals.start [] 0)).locals.log =
      [] ++ ([Call.GetFileDescriptor "src" Mode.Read, Call.GetFileDescriptor "dst" Mode.Write,
        Call.Seek 3 500 "src" Whence.SEEK_SET, Call.Seek 4 2000 "dst" Whence.SEEK_SET] ++
        chunkCalls copyAt2048 3 4 (chunkSizes 1024 2048)) ∧
    chunkCalls copyAt2048 3 4 (chunkSizes 1024 2048) =
      [Call.Read 3 1024 "src", Call.Write 4 1024 Payload.buffer "dst",
       Call.Read 3 1024 "src", Call.Write 4 1024 Payload.buffer "dst"] :=
  ⟨((seek_semantics okAccessor 1024 copyAt2048 (DrainLocals.start [] 0)
      (fun cs _ => okAccessor_clean _ cs)).1 rfl (by decide) (by decide) (by decide)).1,
   by decide⟩

/-! ## Properties of one worker cycle -/

/-- C4. Open-failure isolation for copies: when the worker comes to a Copy or CopyAt at the
front of the queue and the open of its source or of its destination answers the error
sentinel, the dispatch makes the two opens and no seek, read or write, leaves the four
byte counters as they were, and leaves the switch normally; the operation is then removed
from the queue and the worker goes on to the next queued operation. -/
theorem open_failure_isolation (acc : FileAccessor) (s : FileDrainerSingleThread)
    (fdo : FileDrainOperation) (rest : List FileDrainOperation)
    (hpc : s.pc = WorkerPC.polling) (hq : s.operations = fdo :: rest)
    (hop : fdo.op = DrainOperation.Copy ∨ fdo.op = DrainOperation.CopyAt)
    (hfail : srcFd acc fdo s.locals.log = acc.errorState ∨
      dstFd acc fdo s.locals.log = acc.errorState) :
    (workerSteps acc 2 s).locals.log = s.locals.log ++ copyOpens fdo ∧
    (∀ c ∈ copyOpens fdo, c.isTransfer = false) ∧
    (workerSteps acc 2 s).locals.nReadBytesTasked = s.locals.nReadBytesTasked ∧
    (workerSteps acc 2 s).locals.nReadBytesSucc = s.locals.nReadBytesSucc ∧
    (workerSteps acc 2 s).locals.nWriteBytesTasked = s.locals.nWriteBytesTasked ∧
    (workerSteps acc 2 s).locals.nWriteBytesSucc = s.locals.nWriteBytesSucc ∧
    (workerSteps acc 2 s).pc = WorkerPC.popping ∧
    (workerSteps acc 3 s).pc = WorkerPC.polling ∧
    (workerSteps acc 3 s).operations = rest ∧
    (workerSteps acc 3 s).locals = (workerSteps acc 2 s).locals ∧
    (∀ next rest1, rest = next :: rest1 →
      (workerSteps acc 4 s).pc = WorkerPC.draining ∧
      (workerSteps acc 4 s).operations = next :: rest1 ∧
      (workerSteps acc 5 s).locals =
        (dispatch acc s.bufferSize next (workerSteps acc 3 s).locals).locals) := by
  have hret : dispatch acc s.bufferSize fdo s.locals =
      Res.ret () { s.locals with log := s.locals.log ++ copyOpens fdo } := by
    rw [dispatch_copy_eq acc _ fdo _ hop]
    exact dispatchCopy_open_failed acc _ fdo _ hfail
  obtain ⟨_, _, _, d4, _, _⟩ := cycle_dispatch acc s fdo rest hpc hq
  obtain ⟨c1, c2, c3, c4, c5⟩ := cycle_continues acc s fdo rest _ hpc hq hret
  rw [hret] at d4
  have d4 : (workerSteps acc 2 s).locals =
      { s.locals with log := s.locals.log ++ copyOpens fdo } := d4
  refine ⟨by rw [d4], ?_, by rw [d4], by rw [d4], by rw [d4], by rw [d4], c1, c2, c3,
    by rw [c4, d4], ?_⟩
  · intro c hc
    simp [copyOpens] at hc
    rcases hc with h | h <;> rw [h] <;> rfl
  · intro next rest1 hrest
    rw [c4]
    exact c5 next rest1 hrest

/-- C4, on a queue holding a copy whose source cannot be opened, then a Create: the copy
makes its two opens only and the Create is dispatched next. -/
theorem open_failure_isolation_witness :
    (workerSteps noSourceAccessor 2 (started 4096 [copy10000, createOp])).locals.log =
      (started 4096 [copy10000, createOp]).locals.log ++ copyOpens copy10000 ∧
    (workerSteps noSourceAccessor 5 (started 4096 [copy10000, createOp])).locals.log =
      [Call.GetFileDescriptor "src" Mode.Read, Call.GetFileDescriptor "dst" Mode.Append,
       Call.GetFileDescriptor "g" Mode.Write] :=
  ⟨(open_failure_isolation noSourceAccessor (started 4096 [copy10000, createOp])
      copy10000 [createOp] rfl rfl (Or.inl rfl) (Or.inl (by decide))).1,
   by decide⟩

/-- C6. A transfer fault abandons the rest of a copy: when the worker dispatches a Copy or
CopyAt whose opens succeeded and some call of the dispatch throws, the throwing call is
the last call made for the operation (every call before it returned, no call follows it,
none is repeated), the failure is caught in the dispatch (one line on `std::cerr`, the
switch is left normally), the operation is removed from the queue and the next queued
operation is dispatched. -/
theorem transfer_fault_abandons (acc : FileAccessor) (s : FileDrainerSingleThread)
    (fdo : FileDrainOperation) (rest : List FileDrainOperation) (cs : List Call)
    (hpc : s.pc = WorkerPC.polling) (hq : s.operations = fdo :: rest)
    (hop : fdo.op = DrainOperation.Copy ∨ fdo.op = DrainOperation.CopyAt)
    (hsrc : srcFd acc fdo s.locals.log ≠ acc.errorState)
    (hdst : dstFd acc fdo s.locals.log ≠ acc.errorState)
    (hlog : (workerSteps acc 2 s).locals.log = s.locals.log ++ cs)
    (hfault : ¬ Clean acc s.locals.log cs) :
    (∃ pre c, cs = pre ++ [c] ∧ Clean acc s.locals.log pre ∧
      acc.faults (s.locals.log ++ pre) c = true ∧ c.isTransfer = true) ∧
    (workerSteps acc 2 s).locals.cerrLines = s.locals.cerrLines + 1 ∧
    (workerSteps acc 2 s).pc = WorkerPC.popping ∧
    (workerSteps acc 3 s).pc = WorkerPC.polling ∧
    (workerSteps acc 3 s).operations = rest ∧
    (workerSteps acc 3 s).locals = (workerSteps acc 2 s).locals ∧
    (∀ next rest1, rest = next :: rest1 →
      (workerSteps acc 4 s).pc = WorkerPC.draining ∧
      (workerSteps acc 4 s).operations = next :: rest1 ∧
      (workerSteps acc 5 s).locals =
        (dispatch acc s.bufferSize next (workerSteps acc 3 s).locals).locals) := by
  obtain ⟨_, _, _, d4, _, _⟩ := cycle_dispatch acc s fdo rest hpc hq
  rw [dispatch_copy_eq acc _ fdo _ hop] at d4
  rcases dispatchCopy_outcome acc s.bufferSize fdo s.locals hsrc hdst with
    ⟨l1, cs1, hres, _, hl, hclean⟩ | ⟨l1, cs1, c, hres, hcerr, hl, hclean, hf⟩ |
    ⟨l1, cs1, hres, hl, hclean⟩
  · exfalso
    rw [hres] at d4
    have d4 : (workerSteps acc 2 s).locals = l1 := d4
    rw [d4, hl] at hlog
    rw [← List.append_cancel_left hlog] at hfault
    exact hfault hclean
  · rw [hres] at d4
    have d4 : (workerSteps acc 2 s).locals = l1 := d4
    have hret : dispatch acc s.bufferSize fdo s.locals = Res.ret () l1 := by
      rw [dispatch_copy_eq acc _ fdo _ hop]; exact hres
    obtain ⟨c1, c2, c3, c4, c5⟩ := cycle_continues acc s fdo rest _ hpc hq hret
    rw [d4, hl] at hlog
    have hcs : cs = cs1 ++ [c] := (List.append_cancel_left hlog).symm
    refine ⟨⟨cs1, c, hcs, hclean, hf, ?_⟩, by rw [d4, hcerr], c1, c2, c3, by rw [c4, d4], ?_⟩
    · cases c <;> simp [FileAccessor.faults] at hf <;> rfl
    · intro next rest1 hrest
      rw [c4]
      exact c5 next rest1 hrest
  · exfalso
    rw [hres] at d4
    have d4 : (workerSteps acc 2 s).locals = l1 := d4
    rw [d4, hl] at hlog
    rw [← List.append_cancel_left hlog] at hfault
    exact hfault hclean

/-- C6, on a copy of 10000 bytes whose second read throws, followed by a Create: the copy
stops at the throwing read and the Create is dispatched next. -/
theorem transfer_fault_abandons_witness :
    (workerSteps readFaultAccessor 5 (started 4096 [copy10000, createOp])).locals.log =
      [Call.GetFileDescriptor "src" Mode.Read, Call.GetFileDescriptor "dst" Mode.Append,
       Call.Read 3 4096 "src", Call.Write 4 4096 Payload.buffer "dst",
       Call.Read 3 4096 "src", Call.GetFileDescriptor "g" Mode.Write] ∧
    (workerSteps readFaultAccessor 2 (started 4096 [copy10000, createOp])).locals.cerrLines =
      (started 4096 [copy10000, createOp]).locals.cerrLines + 1 :=
  ⟨by decide,
   (transfer_fault_abandons readFaultAccessor (started 4096 [copy10000, createOp])
      copy10000 [createOp]
      [Call.GetFileDescriptor "src" Mode.Read, Call.GetFileDescriptor "dst" Mode.Append,
       Call.Read 3 4096 "src", Call.Write 4 4096 Payload.buffer "dst",
       Call.Read 3 4096 "src"]
      rfl rfl (Or.inl rfl) (by decide) (by decide) (by decide) (by decide)).2.1⟩

/-- C5 fails on the code. With an accessor whose every open answers the sentinel -1, a
Write still adds its 4 bytes to the tasked counter and calls `Write` with descriptor -1;
a WriteAt calls `Seek` and `Write` with descriptor -1; a SeekEnd calls `Seek` with
descriptor -1. Only the copy case tests the descriptors. -/
theorem open_failure_not_skipped :
    dispatch noOpenAccessor 4096 writeOp (DrainLocals.start [] 0) =
      Res.ret ()
        { nReadBytesTasked := 0, nReadBytesSucc := 0, nWriteBytesTasked := 4,
          nWriteBytesSucc := 0, cerrLines := 0,
          log := [Call.GetFileDescriptor "f" Mode.Write,
                  Call.Write (-1) 4 (Payload.memory [1, 2, 3, 4]) "f"] } ∧
    dispatch noOpenAccessor 4096 writeAtOp (DrainLocals.start [] 0) =
      Res.ret ()
        { nReadBytesTasked := 0, nReadBytesSucc := 0, nWriteBytesTasked := 4,
          nWriteBytesSucc := 0, cerrLines := 0,
          log := [Call.GetFileDescriptor "f" Mode.Write,
                  Call.Seek (-1) 100 "f" Whence.SEEK_SET,
                  Call.Write (-1) 4 (Payload.memory [1, 2, 3, 4]) "f"] } ∧
    dispatch noOpenAccessor 4096 seekEndOp (DrainLocals.start [] 0) =
      Res.ret ()
        { nReadBytesTasked := 0, nReadBytesSucc := 0, nWriteBytesTasked := 0,
          nWriteBytesSucc := 0, cerrLines := 0,
          log := [Call.GetFileDescriptor "f" Mode.Write,
                  Call.Seek (-1) 0 "f" Whence.SEEK_END] } ∧
    noOpenAccessor.GetFileDescriptor [] "f" Mode.Write = noOpenAccessor.errorState := by
  decide

theorem run_terminated (acc : FileAccessor) (s : FileDrainerSingleThread)
    (evs : List Event) (h : s.pc = WorkerPC.terminated) :
    (run acc s evs).pc = WorkerPC.terminated ∧ (run acc s evs).locals = s.locals := by
  induction evs generalizing s with
  | nil => exact ⟨h, rfl⟩
  | cons e evs ih =>
    have h1 : (step acc s e).pc = WorkerPC.terminated ∧ (step acc s e).locals = s.locals := by
      cases e <;> simp [step, workerStep, AddOperation, Finish, h]
    obtain ⟨h2, h3⟩ := ih (step acc s e) h1.1
    exact ⟨h2, h3.trans h1.2⟩

/-- C7 fails on the code. With an accessor whose `Write` throws, the dispatch of a Write at
the front of the queue ends the worker by `std::terminate`: the exception leaves the
switch uncaught, the Write is not removed from the queue, and whatever happens afterwards
the Create queued behind it is never dispatched. -/
theorem write_fault_terminates_worker :
    dispatch writeFaultAccessor 4096 writeOp (DrainLocals.start [] 0) =
      Res.failure
        { nReadBytesTasked := 0, nReadBytesSucc := 0, nWriteBytesTasked := 4,
          nWriteBytesSucc := 0, cerrLines := 0,
          log := [Call.GetFileDescriptor "f" Mode.Write,
                  Call.Write 4 4 (Payload.memory [1, 2, 3, 4]) "f"] } ∧
    (workerSteps writeFaultAccessor 2 (started 4096 [writeOp, createOp])).pc =
      WorkerPC.terminated ∧
    (workerSteps writeFaultAccessor 2 (started 4096 [writeOp, createOp])).operations =
      [writeOp, createOp] ∧
    ∀ evs : List Event,
      (run writeFaultAccessor
        (workerSteps writeFaultAccessor 2 (started 4096 [writeOp, createOp])) evs).pc =
          WorkerPC.terminated ∧
      (run writeFaultAccessor
        (workerSteps writeFaultAccessor 2 (started 4096 [writeOp, createOp])) evs).locals.log =
          [Call.GetFileDescriptor "f" Mode.Write,
           Call.Write 4 4 (Payload.memory [1, 2, 3, 4]) "f"] := by
  refine ⟨by decide, by decide, by decide, ?_⟩
  intro evs
  have h := run_terminated writeFaultAccessor
    (workerSteps writeFaultAccessor 2 (started 4096 [writeOp, createOp])) evs (by decide)
  refine ⟨h.1, ?_⟩
  rw [h.2]
  decide

/-! ## Lemmas on schedules -/

theorem run_cons (acc : FileAccessor) (s : FileDrainerSingleThread) (e : Event)
    (evs : List Event) : run acc s (e :: evs) = run acc (step acc s e) evs := rfl

theorem run_stopped (acc : FileAccessor) (s : FileDrainerSingleThread) (evs : List Event)
    (h : s.pc = WorkerPC.terminated ∨ s.pc = WorkerPC.undefined) :
    (run acc s evs).locals = s.locals := by
  induction evs generalizing s with
  | nil => rfl
  | cons e evs ih =>
    have h1 : ((step acc s e).pc = WorkerPC.terminated ∨
        (step acc s e).pc = WorkerPC.undefined) ∧ (step acc s e).locals = s.locals := by
      rcases h with h | h <;> cases e <;> simp [step, workerStep, AddOperation, Finish, h]
    rw [run_cons, ih (step acc s e) h1.1, h1.2]

/-- The worker's part of any schedule, by where the worker stands at its start: at the top
of the loop with the operations `done` at the front of the queue and `3 * done.length`
steps to take; holding the front `fdo`, with two more steps to take; or about to pop, with
one more. -/
theorem run_reaches (acc : FileAccessor) (evs : List Event) :
    ∀ (s : FileDrainerSingleThread) (done todo : List FileDrainOperation),
    (s.pc = WorkerPC.polling → s.operations = done ++ todo →
      workerCount evs = 3 * done.length →
      Reaches acc s evs (drainAll acc s.bufferSize done s.locals) todo) ∧
    (∀ fdo, s.pc = WorkerPC.draining → s.operations = fdo :: (done ++ todo) →
      workerCount evs = 3 * done.length + 2 →
      Reaches acc s evs (drainAll acc s.bufferSize (fdo :: done) s.locals) todo) ∧
    (∀ fdo, s.pc = WorkerPC.popping → s.operations = fdo :: (done ++ todo) →
      workerCount evs = 3 * done.length + 1 →
      Reaches acc s evs (drainAll acc s.bufferSize done s.locals) todo) := by
  induction evs with
  | nil =>
    intro s done todo
    refine ⟨?_, ?_, ?_⟩
    · intro hpc hq hc
      have hd : done = [] := by
        cases done with
        | nil => rfl
        | cons a b => simp [workerCount] at hc
      subst hd
      refine ⟨rfl, ?_⟩
      intro l1 _
      simp [run, pushed, hpc, hq]
    · intro fdo _ _ hc
      simp [workerCount] at hc
    · intro fdo _ _ hc
      simp [workerCount] at hc
  | cons e evs ih =>
    intro s done todo
    cases e with
    | Finish =>
      have hs := ih (Finish s) done todo
      have hfin : ∀ r, Reaches acc (Finish s) evs r todo →
          Reaches acc s (Event.Finish :: evs) r todo := by
        intro r hr
        refine ⟨hr.1, ?_⟩
        intro l1 hl1
        obtain ⟨h1, h2, h3⟩ := hr.2 l1 hl1
        refine ⟨h1, h2, ?_⟩
        rw [run_cons]
        show (run acc (Finish s) evs).finish = _
        rw [h3]
        simp [Finish, List.contains_cons]
      refine ⟨?_, ?_, ?_⟩
      · intro hpc hq hc
        exact hfin _ (hs.1 hpc hq hc)
      · intro fdo hpc hq hc
        exact hfin _ (hs.2.1 fdo hpc hq hc)
      · intro fdo hpc hq hc
        exact hfin _ (hs.2.2 fdo hpc hq hc)
    | AddOperation op =>
      have hs := ih (AddOperation op s) done (todo ++ [op])
      have hadd : ∀ r, Reaches acc (AddOperation op s) evs r (todo ++ [op]) →
          Reaches acc s (Event.AddOperation op :: evs) r todo := by
        intro r hr
        refine ⟨hr.1, ?_⟩
        intro l1 hl1
        obtain ⟨h1, h2, h3⟩ := hr.2 l1 hl1
        refine ⟨?_, h2, ?_⟩
        · rw [run_cons]
          show (run acc (AddOperation op s) evs).operations = _
          rw [h1]
          simp [pushed]
        · rw [run_cons]
          show (run acc (AddOperation op s) evs).finish = _
          rw [h3]
          simp [AddOperation, List.contains_cons]
      refine ⟨?_, ?_, ?_⟩
      · intro hpc hq hc
        exact hadd _ (hs.1 hpc (by simp [AddOperation, hq]) hc)
      · intro fdo hpc hq hc
        exact hadd _ (hs.2.1 fdo hpc (by simp [AddOperation, hq]) hc)
      · intro fdo hpc hq hc
        exact hadd _ (hs.2.2 fdo hpc (by simp [AddOperation, hq]) hc)
    | worker =>
      have hwk : ∀ r (s1 : FileDrainerSingleThread), workerStep acc s = s1 →
          s1.finish = s.finish → Reaches acc s1 evs r todo →
          Reaches acc s (Event.worker :: evs) r todo := by
        intro r s1 hs1 hf hr
        subst hs1
        refine ⟨hr.1, ?_⟩
        intro l1 hl1
        obtain ⟨h1, h2, h3⟩ := hr.2 l1 hl1
        refine ⟨by rw [run_cons]; simpa [pushed] using h1, h2, ?_⟩
        rw [run_cons]
        show (run acc (workerStep acc s) evs).finish = _
        rw [h3, hf]
        simp [List.contains_cons]
      refine ⟨?_, ?_, ?_⟩
      · intro hpc hq hc
        cases done with
        | nil => simp [workerCount] at hc
        | cons fdo done1 =>
          have hc1 : workerCount evs = 3 * done1.length + 2 := by
            simp [workerCount] at hc; omega
          have hq1 : s.operations = fdo :: (done1 ++ todo) := by simpa using hq
          have hstep : workerStep acc s =
              { s with pc := WorkerPC.draining,
                       maxQueueSize := if s.operations.length > s.maxQueueSize
                         then s.operations.length else s.maxQueueSize } := by
            simp [workerStep, hpc, hq1]
          have h := (ih (workerStep acc s) done1 todo).2.1 fdo (by rw [hstep]) (by rw [hstep]; exact hq1) hc1
          rw [hstep] at h
          exact hwk _ _ hstep rfl h
      · intro fdo hpc hq hc
        have hc1 : workerCount evs = 3 * done.length + 1 := by
          simp [workerCount] at hc; omega
        cases hres : dispatch acc s.bufferSize fdo s.locals with
        | ret u l1 =>
          have hstep : workerStep acc s =
              { s with pc := WorkerPC.popping, locals := l1 } := by
            simp [workerStep, hpc, hq, hres]
          have h := (ih (workerStep acc s) done todo).2.2 fdo (by rw [hstep]) (by rw [hstep]; exact hq) hc1
          rw [hstep] at h
          have hr : drainAll acc s.bufferSize (fdo :: done) s.locals =
              drainAll acc s.bufferSize done l1 := by
            simp [drainAll, hres, Res.bind]
          rw [hr]
          exact hwk _ _ hstep rfl h
        | failure l1 =>
          have hstep : workerStep acc s =
              { s with pc := WorkerPC.terminated, locals := l1 } := by
            simp [workerStep, hpc, hq, hres]
          have hr : drainAll acc s.bufferSize (fdo :: done) s.locals = Res.failure l1 := by
            simp [drainAll, hres, Res.bind]
          rw [hr]
          refine ⟨?_, by intro l2 hl2; cases hl2⟩
          rw [run_cons]
          show (run acc (workerStep acc s) evs).locals = l1
          rw [run_stopped acc _ evs (by rw [hstep]; exact Or.inl rfl), hstep]
        | undefined l1 =>
          have hstep : workerStep acc s =
              { s with pc := WorkerPC.undefined, locals := l1 } := by
            simp [workerStep, hpc, hq, hres]
          have hr : drainAll acc s.bufferSize (fdo :: done) s.locals = Res.undefined l1 := by
            simp [drainAll, hres, Res.bind]
          rw [hr]
          refine ⟨?_, by intro l2 hl2; cases hl2⟩
          rw [run_cons]
          show (run acc (workerStep acc s) evs).locals = l1
          rw [run_stopped acc _ evs (by rw [hstep]; exact Or.inr rfl), hstep]
      · intro fdo hpc hq hc
        have hc1 : workerCount evs = 3 * done.length := by
          simp [workerCount] at hc; omega
        have hstep : workerStep acc s =
            { s with pc := WorkerPC.polling, operations := done ++ todo } := by
          simp [workerStep, hpc, hq]
        have h := (ih (workerStep acc s) done todo).1 (by rw [hstep]) (by rw [hstep]) hc1
        rw [hstep] at h
        exact hwk _ _ hstep rfl h

/-- Every dispatch only adds calls to the trace. -/
theorem dispatch_grows (acc : FileAccessor) (B : Nat) (fdo : FileDrainOperation)
    (l : DrainLocals) : ∃ cs, (dispatch acc B fdo l).locals.log = l.log ++ cs := by
  have hcopy : (fdo.op = DrainOperation.Copy ∨ fdo.op = DrainOperation.CopyAt) →
      ∃ cs, (dispatch acc B fdo l).locals.log = l.log ++ cs := by
    intro hop
    rw [dispatch_copy_eq acc B fdo l hop, dispatchCopy_unfold]
    split
    · have hpost := copyTry_post acc B fdo (srcFd acc fdo l.log) (dstFd acc fdo l.log)
        { l with log := l.log ++ copyOpens fdo }
      obtain ⟨cs, hcs⟩ := Post_log _ _ _ _ hpost
      have hcs : (copyTry acc B fdo (srcFd acc fdo l.log) (dstFd acc fdo l.log)
          { l with log := l.log ++ copyOpens fdo }).locals.log =
          l.log ++ (copyOpens fdo ++ cs) := by
        rw [hcs]; simp
      refine ⟨copyOpens fdo ++ cs, ?_⟩
      rw [← hcs]
      cases copyTry acc B fdo (srcFd acc fdo l.log) (dstFd acc fdo l.log)
        { l with log := l.log ++ copyOpens fdo } <;> rfl
    · exact ⟨copyOpens fdo, rfl⟩
  cases hop : fdo.op with
  | Copy => exact hcopy (Or.inl hop)
  | CopyAt => exact hcopy (Or.inr hop)
  | SeekEnd =>
    refine ⟨[Call.GetFileDescriptor fdo.toFileName Mode.Write,
      Call.Seek (acc.GetFileDescriptor l.log fdo.toFileName Mode.Write) 0
        fdo.toFileName Whence.SEEK_END], ?_⟩
    by_cases hs : acc.Seek (l.log ++ [Call.GetFileDescriptor fdo.toFileName Mode.Write])
        (acc.GetFileDescriptor l.log fdo.toFileName Mode.Write) 0 fdo.toFileName
        Whence.SEEK_END = true <;>
      simp [dispatch, hop, dispatchSeekEnd, GetFileDescriptor, Seek, Res.locals, hs]
  | WriteAt =>
    by_cases hs : acc.Seek (l.log ++ [Call.GetFileDescriptor fdo.toFileName Mode.Write])
        (acc.GetFileDescriptor l.log fdo.toFileName Mode.Write) fdo.toOffset fdo.toFileName
        Whence.SEEK_SET = true
    · refine ⟨[Call.GetFileDescriptor fdo.toFileName Mode.Write,
        Call.Seek (acc.GetFileDescriptor l.log fdo.toFileName Mode.Write) fdo.toOffset
          fdo.toFileName Whence.SEEK_SET,
        Call.Write (acc.GetFileDescriptor l.log fdo.toFileName Mode.Write) fdo.countBytes
          (Payload.memory fdo.dataToWrite) fdo.toFileName], ?_⟩
      cases hw : acc.Write (l.log ++ [Call.GetFileDescriptor fdo.toFileName Mode.Write,
          Call.Seek (acc.GetFileDescriptor l.log fdo.toFileName Mode.Write) fdo.toOffset
            fdo.toFileName Whence.SEEK_SET])
          (acc.GetFileDescriptor l.log fdo.toFileName Mode.Write) fdo.countBytes
          (Payload.memory fdo.dataToWrite) fdo.toFileName <;>
        simp [dispatch, hop, dispatchWriteAt, GetFileDescriptor, Seek, Write, Res.bind,
          Res.locals, hs, hw]
    · refine ⟨[Call.GetFileDescriptor fdo.toFileName Mode.Write,
        Call.Seek (acc.GetFileDescriptor l.log fdo.toFileName Mode.Write) fdo.toOffset
          fdo.toFileName Whence.SEEK_SET], ?_⟩
      simp [dispatch, hop, dispatchWriteAt, GetFileDescriptor, Seek, Res.bind,
        Res.locals, hs]
  | Write =>
    refine ⟨[Call.GetFileDescriptor fdo.toFileName Mode.Write,
      Call.Write (acc.GetFileDescriptor l.log fdo.toFileName Mode.Write) fdo.countBytes
        (Payload.memory fdo.dataToWrite) fdo.toFileName], ?_⟩
    cases hw : acc.Write (l.log ++ [Call.GetFileDescriptor fdo.toFileName Mode.Write])
        (acc.GetFileDescriptor l.log fdo.toFileName Mode.Write) fdo.countBytes
        (Payload.memory fdo.dataToWrite) fdo.toFileName <;>
      simp [dispatch, hop, dispatchWrite, GetFileDescriptor, Write, Res.bind,
        Res.locals, hw]
  | Create =>
    exact ⟨[Call.GetFileDescriptor fdo.toFileName Mode.Write],
      by simp [dispatch, hop, GetFileDescriptor, Res.locals]⟩
  | Open =>
    exact ⟨[Call.GetFileDescriptor fdo.toFileName Mode.Append],
      by simp [dispatch, hop, GetFileDescriptor, Res.locals]⟩
  | Unrecognized =>
    exact ⟨[], by simp [dispatch, hop, Res.locals]⟩

theorem callsOf_eq (acc : FileAccessor) (B : Nat) (fdo : FileDrainOperation)
    (l : DrainLocals) :
    (dispatch acc B fdo l).locals.log = l.log ++ callsOf acc B fdo l := by
  obtain ⟨cs, h⟩ := dispatch_grows acc B fdo l
  unfold callsOf
  rw [h, List.drop_left]

/-- The trace of a sequential drain that returns is the trace before it followed by the
calls of each operation in turn. -/
theorem drainAll_log (acc : FileAccessor) (B : Nat) (ops : List FileDrainOperation)
    (l l1 : DrainLocals) (h : drainAll acc B ops l = Res.ret () l1) :
    l1.log = l.log ++ callsOfAll acc B ops l := by
  induction ops generalizing l with
  | nil =>
    simp only [drainAll] at h
    injection h with _ h
    subst h
    simp [callsOfAll]
  | cons fdo rest ih =>
    simp only [drainAll] at h
    obtain ⟨u, la, h1, h2⟩ := bind_eq_ret _ _ _ _ h
    have e := ih la h2
    have hc := callsOf_eq acc B fdo l
    rw [h1] at hc
    have hc : la.log = l.log ++ callsOf acc B fdo l := hc
    rw [e, hc]
    simp only [callsOfAll, h1, Res.locals, List.append_assoc]

/-! ## The worker loop -/

/-- The order of the worker loop. Let the worker stand at the top of its loop with the operations
`done` at the front of the queue (and `todo` behind them), and let `evs` be any schedule
in which the worker takes `3 * done.length` steps, that is `done.length` cycles,
interleaved in any way with enqueues and calls of `Finish`. Then the worker's locals are
those of dispatching `done` one operation at a time in queue order; and when every
dispatch leaves the switch normally, the trace is the trace before followed by the calls
of the first operation, then of the second, and so on, each once, and exactly the
operations of `done` have been removed from the queue: it holds `todo` followed by what
was enqueued meanwhile. In one cycle (any schedule `cyc` with three worker steps) the
operation dispatched is the front `fdo` of the queue, and the element removed is that same
front: the queue is left with what was behind it and what was enqueued meanwhile. -/
theorem fifo_processing (acc : FileAccessor) (s : FileDrainerSingleThread)
    (done todo : List FileDrainOperation) (evs : List Event)
    (hpc : s.pc = WorkerPC.polling) (hq : s.operations = done ++ todo)
    (hcount : workerCount evs = 3 * done.length) :
    (run acc s evs).locals = (drainAll acc s.bufferSize done s.locals).locals ∧
    (∀ l1, drainAll acc s.bufferSize done s.locals = Res.ret () l1 →
      (run acc s evs).locals.log =
        s.locals.log ++ callsOfAll acc s.bufferSize done s.locals ∧
      (run acc s evs).operations = todo ++ pushed evs ∧
      (run acc s evs).pc = WorkerPC.polling) ∧
    (∀ fdo rest cyc, s.operations = fdo :: rest → workerCount cyc = 3 →
      (run acc s cyc).locals = (dispatch acc s.bufferSize fdo s.locals).locals ∧
      (∀ l1, dispatch acc s.bufferSize fdo s.locals = Res.ret () l1 →
        (run acc s cyc).operations = rest ++ pushed cyc ∧
        (run acc s cyc).pc = WorkerPC.polling)) := by
  obtain ⟨h1, h2⟩ := (run_reaches acc evs s done todo).1 hpc hq hcount
  refine ⟨h1, ?_, ?_⟩
  · intro l1 hl1
    obtain ⟨h3, h4, _⟩ := h2 l1 hl1
    refine ⟨?_, h3, h4⟩
    rw [h1, hl1]
    exact drainAll_log acc _ done _ _ hl1
  · intro fdo rest cyc hq1 hc
    obtain ⟨g1, g2⟩ := (run_reaches acc cyc s [fdo] rest).1 hpc hq1 hc
    have hd : drainAll acc s.bufferSize [fdo] s.locals =
        dispatch acc s.bufferSize fdo s.locals := by
      simp only [drainAll]
      cases dispatch acc s.bufferSize fdo s.locals <;> rfl
    rw [hd] at g1 g2
    refine ⟨g1, ?_⟩
    intro l1 hl1
    obtain ⟨g3, g4, _⟩ := g2 l1 hl1
    exact ⟨g3, g4⟩

/-- The order of the worker loop on a queue holding a copy of 10000 bytes and then a
Create, while a Write is enqueued and `Finish` is called during the two cycles: the copy's
calls come first, then the Create's, and the Write enqueued meanwhile is what the queue
holds afterwards. -/
theorem fifo_processing_witness :
    (run okAccessor (started 4096 [copy10000, createOp])
      [Event.worker, Event.AddOperation writeOp, Event.worker, Event.Finish, Event.worker,
       Event.worker, Event.worker, Event.worker]).locals.log =
      [Call.GetFileDescriptor "src" Mode.Read, Call.GetFileDescriptor "dst" Mode.Append,
       Call.Read 3 4096 "src", Call.Write 4 4096 Payload.buffer "dst",
       Call.Read 3 4096 "src", Call.Write 4 4096 Payload.buffer "dst",
       Call.Read 3 1808 "src", Call.Write 4 1808 Payload.buffer "dst",
       Call.GetFileDescriptor "g" Mode.Write] ∧
    (run okAccessor (started 4096 [copy10000, createOp])
      [Event.worker, Event.AddOperation writeOp, Event.worker, Event.Finish, Event.worker,
       Event.worker, Event.worker, Event.worker]).operations =
      [] ++ pushed [Event.worker, Event.AddOperation writeOp, Event.worker, Event.Finish,
        Event.worker, Event.worker, Event.worker, Event.worker] :=
  ⟨by decide,
   ((fifo_processing okAccessor (started 4096 [copy10000, createOp])
      [copy10000, createOp] []
      [Event.worker, Event.AddOperation writeOp, Event.worker, Event.Finish, Event.worker,
       Event.worker, Event.worker, Event.worker] rfl rfl rfl).2.1
      (drainAll okAccessor 4096 [copy10000, createOp]
        (started 4096 [copy10000, createOp]).locals).locals (by decide)).2.1⟩

/-- C2 fails on the code. The queue holds a Write to `f` and then a Create of `g`, and the
accessor's `Write` throws. The worker is given the six steps of two cycles: the failure
of the Write leaves the switch uncaught and ends the worker (`std::terminate`), neither
operation is removed from the queue, and the trace holds the calls of the Write only,
not the calls of the Write followed by the calls of the Create. -/
theorem fifo_stops_at_uncaught_failure :
    workerCount (List.replicate 6 Event.worker) = 3 * [writeOp, createOp].length ∧
    (started 4096 [writeOp, createOp]).pc = WorkerPC.polling ∧
    (started 4096 [writeOp, createOp]).operations = [writeOp, createOp] ∧
    (run writeFaultAccessor (started 4096 [writeOp, createOp])
      (List.replicate 6 Event.worker)).pc = WorkerPC.terminated ∧
    (run writeFaultAccessor (started 4096 [writeOp, createOp])
      (List.replicate 6 Event.worker)).operations = [writeOp, createOp] ∧
    (run writeFaultAccessor (started 4096 [writeOp, createOp])
      (List.replicate 6 Event.worker)).locals.log =
        [Call.GetFileDescriptor "f" Mode.Write,
         Call.Write 4 4 (Payload.memory [1, 2, 3, 4]) "f"] ∧
    callsOfAll writeFaultAccessor 4096 [writeOp, createOp]
        (started 4096 [writeOp, createOp]).locals =
      [Call.GetFileDescriptor "f" Mode.Write,
       Call.Write 4 4 (Payload.memory [1, 2, 3, 4]) "f",
       Call.GetFileDescriptor "g" Mode.Write] := by
  decide

/-- The worker leaves its loop only by the step that reads `finish` as true, which it takes
only after it has seen the queue empty. -/
theorem worker_exit_step (acc : FileAccessor) (s : FileDrainerSingleThread) (e : Event) :
    ((step acc s e).pc = WorkerPC.exited → s.pc ≠ WorkerPC.exited →
      e = Event.worker ∧ s.pc = WorkerPC.checkFinish ∧ s.finish = true) ∧
    ((step acc s e).pc = WorkerPC.checkFinish → s.pc ≠ WorkerPC.checkFinish →
      e = Event.worker ∧ s.pc = WorkerPC.polling ∧ s.operations = []) := by
  cases e with
  | AddOperation op => exact ⟨fun h hn => absurd h hn, fun h hn => absurd h hn⟩
  | Finish => exact ⟨fun h hn => absurd h hn, fun h hn => absurd h hn⟩
  | worker =>
    constructor
    · intro h hn
      refine ⟨rfl, ?_⟩
      simp only [step, workerStep] at h
      split at h
      · split at h <;> simp at h
      · rename_i hpc
        split at h
        · rename_i hf; exact ⟨hpc, hf⟩
        · simp at h
      · split at h
        · simp at h
        · split at h <;> simp at h
      · split at h <;> simp at h
      all_goals exact absurd h hn
    · intro h hn
      refine ⟨rfl, ?_⟩
      simp only [step, workerStep] at h
      split at h
      · rename_i hpc
        split at h
        · rename_i he
          exact ⟨hpc, by simpa using he⟩
        · simp at h
      · split at h <;> simp at h
      · split at h
        · simp at h
        · split at h <;> simp at h
      · split at h <;> simp at h
      all_goals exact absurd h hn

theorem run_replicate_worker (acc : FileAccessor) (n : Nat) (s : FileDrainerSingleThread) :
    run acc s (List.replicate n Event.worker) = workerSteps acc n s := by
  induction n generalizing s with
  | zero => rfl
  | succ n ih =>
    rw [List.replicate_succ, run_cons]
    exact ih (workerStep acc s)

theorem workerCount_replicate (n : Nat) :
    workerCount (List.replicate n Event.worker) = n := by
  induction n with
  | zero => rfl
  | succ n ih => rw [List.replicate_succ]; simp [workerCount, ih]

theorem pushed_replicate (n : Nat) : pushed (List.replicate n Event.worker) = [] := by
  induction n with
  | zero => rfl
  | succ n ih => rw [List.replicate_succ]; simp [pushed, ih]

/-- Shutdown without the race: when `Finish` is called while the worker stands at the top
of its loop with the operations `ops` queued, nothing is enqueued afterwards and every
dispatch leaves the switch normally, the worker dispatches all of `ops` in order, empties
the queue, closes the files and exits, in `3 * ops.length + 2` steps. -/
theorem shutdown_drains_from_polling (acc : FileAccessor) (s : FileDrainerSingleThread)
    (ops : List FileDrainOperation) (l1 : DrainLocals)
    (hpc : s.pc = WorkerPC.polling) (hq : s.operations = ops)
    (hret : drainAll acc s.bufferSize ops s.locals = Res.ret () l1) :
    (workerSteps acc (3 * ops.length + 2) (Finish s)).pc = WorkerPC.exited ∧
    (workerSteps acc (3 * ops.length + 2) (Finish s)).operations = [] ∧
    (workerSteps acc (3 * ops.length + 2) (Finish s)).locals.log =
      s.locals.log ++ callsOfAll acc s.bufferSize ops s.locals ++ [Call.CloseAll] := by
  obtain ⟨h1, h2⟩ := (run_reaches acc (List.replicate (3 * ops.length) Event.worker)
    (Finish s) ops []).1 hpc (by simp [Finish, hq]) (workerCount_replicate _)
  obtain ⟨h3, h4, h5⟩ := h2 l1 hret
  rw [run_replicate_worker] at h1 h3 h4 h5
  rw [pushed_replicate] at h3
  have h5 : (workerSteps acc (3 * ops.length) (Finish s)).finish = true := by
    rw [h5]; simp [Finish]
  have h1 : (workerSteps acc (3 * ops.length) (Finish s)).locals = l1 := by
    rw [h1]
    show (drainAll acc s.bufferSize ops s.locals).locals = l1
    rw [hret]; rfl
  have hlog := drainAll_log acc _ ops _ _ hret
  rw [workerSteps_add]
  generalize workerSteps acc (3 * ops.length) (Finish s) = t at h1 h3 h4 h5
  simp [workerSteps, workerStep, h4, h3, h5, h1, hlog]

/-- C3 fails on the code. The worker has tested the queue, found it empty and released
the queue lock; before it reads `finish`, a producer enqueues a Create and `Join` is
called, which calls `Finish` while that one operation is queued. The worker then reads
`finish` as true and leaves the loop: `Join` returns, the Create is still in the queue, and
no call was made for it. -/
theorem shutdown_race_loses_operation :
    (run okAccessor (started 4096 []) [Event.worker, Event.AddOperation createOp]).pc =
      WorkerPC.checkFinish ∧
    (run okAccessor (started 4096 []) [Event.worker, Event.AddOperation createOp]).operations =
      [createOp] ∧
    (run okAccessor (started 4096 []) [Event.worker, Event.AddOperation createOp]).finish =
      false ∧
    Join okAccessor [Event.worker]
        (run okAccessor (started 4096 []) [Event.worker, Event.AddOperation createOp]) =
      some
        { bufferSize := 4096, operations := [createOp], finish := true, joinable := false,
          pc := WorkerPC.exited, maxQueueSize := 0,
          locals := { nReadBytesTasked := 0, nReadBytesSucc := 0, nWriteBytesTasked := 0,
                      nWriteBytesSucc := 0, log := [Call.CloseAll], cerrLines := 0 } } := by
  decide

theorem step_finish_mono (acc : FileAccessor) (s : FileDrainerSingleThread) (e : Event)
    (h : s.finish = true) : (step acc s e).finish = true := by
  cases e with
  | AddOperation op => exact h
  | Finish => rfl
  | worker =>
    show (workerStep acc s).finish = true
    unfold workerStep
    split
    · split <;> exact h
    · split <;> exact h
    · split
      · exact h
      · split <;> exact h
    · split <;> exact h
    all_goals exact h

theorem run_finish_mono (acc : FileAccessor) (s : FileDrainerSingleThread)
    (evs : List Event) (h : s.finish = true) : (run acc s evs).finish = true := by
  induction evs generalizing s with
  | nil => exact h
  | cons e evs ih => exact ih _ (step_finish_mono acc s e h)

/-- C9. Idempotent shutdown. `Finish` twice is `Finish` once, and `Finish` sets the flag;
once the flag is true, no event on the drainer (a worker step, an enqueue, `Finish`), no
schedule of them, and none of `SetBufferSize`, `Start` (whether or not the buffer can be
allocated), `Join` and the destructor makes it false again; and when a `Join` has returned, the worker thread is not joinable and
every later `Join`, the destructor's included, returns at once (also on the empty
schedule) and changes nothing. -/
theorem idempotent_shutdown (acc : FileAccessor) (s : FileDrainerSingleThread) :
    Finish (Finish s) = Finish s ∧ (Finish s).finish = true ∧
    (s.finish = true →
      (∀ e, (step acc s e).finish = true) ∧
      (∀ evs, (run acc s evs).finish = true) ∧
      (∀ b, (SetBufferSize b s).finish = true) ∧
      (∀ canResize, (Start canResize s).finish = true) ∧
      (∀ evs s1, Join acc evs s = some s1 → s1.finish = true) ∧
      (∀ evs s1, destructor acc evs s = some s1 → s1.finish = true)) ∧
    (∀ evs s1, Join acc evs s = some s1 →
      s1.joinable = false ∧
      (∀ evs2, Join acc evs2 s1 = some s1) ∧
      (∀ evs2, destructor acc evs2 s1 = some s1)) := by
  have hjoin_fin : ∀ evs s1, Join acc evs s = some s1 → s.finish = true →
      s1.finish = true := by
    intro evs s1 hj hf
    unfold Join at hj
    split at hj
    · split at hj
      · injection hj with hj
        subst hj
        exact run_finish_mono acc _ evs rfl
      · cases hj
    · injection hj with hj
      subst hj
      exact hf
  have hjoin : ∀ evs s1, Join acc evs s = some s1 → s1.joinable = false := by
    intro evs s1 hj
    unfold Join at hj
    split at hj
    · split at hj
      · injection hj with hj
        subst hj
        rfl
      · cases hj
    · rename_i hn
      injection hj with hj
      subst hj
      simpa using hn
  refine ⟨rfl, rfl, ?_, ?_⟩
  · intro hf
    refine ⟨fun e => step_finish_mono acc s e hf, fun evs => run_finish_mono acc s evs hf,
      fun b => hf, ?_, fun evs s1 hj => hjoin_fin evs s1 hj hf,
      fun evs s1 hj => hjoin_fin evs s1 hj hf⟩
    intro canResize
    unfold Start
    split
    · exact hf
    · split <;> exact hf
  · intro evs s1 hj
    have hn := hjoin evs s1 hj
    refine ⟨hn, ?_, ?_⟩
    · intro evs2
      unfold Join
      rw [if_neg (by rw [hn]; simp)]
    · intro evs2
      unfold destructor Join
      rw [if_neg (by rw [hn]; simp)]

/-- C9, on a drainer with one Create queued: `Join` returns after the five steps the worker
needs, the thread is then not joinable, and a second `Join` and the destructor change
nothing. -/
theorem idempotent_shutdown_witness :
    (∃ s1, Join okAccessor (List.replicate 5 Event.worker) (started 4096 [createOp]) =
        some s1 ∧
      s1.finish = true ∧ s1.joinable = false ∧ s1.operations = [] ∧
      s1.locals.log = [Call.GetFileDescriptor "g" Mode.Write, Call.CloseAll] ∧
      Join okAccessor [] s1 = some s1 ∧
      destructor okAccessor [Event.worker] s1 = some s1) ∧
    (∀ e, (step okAccessor (Finish (started 4096 [createOp])) e).finish = true) :=
  ⟨⟨{ run okAccessor (Finish (started 4096 [createOp])) (List.replicate 5 Event.worker) with
        joinable := false },
     by decide, by decide, by decide, by decide, by decide,
     ((idempotent_shutdown okAccessor (started 4096 [createOp])).2.2.2
        (List.replicate 5 Event.worker) _ (by decide)).2.1 [],
     ((idempotent_shutdown okAccessor (started 4096 [createOp])).2.2.2
        (List.replicate 5 Event.worker) _ (by decide)).2.2 [Event.worker]⟩,
   ((idempotent_shutdown okAccessor (Finish (started 4096 [createOp]))).2.2.1 rfl).1⟩

end adios2.burstbuffer
